import Mathlib

/-!
# Verification of the flat FUSE filesystem in `HW4/P3/FUSE/main_fs.c`

Shallow embedding of the single-file flat filesystem: a superblock, a
fixed table of `MAX_FILES` entries, and one fixed-size data slot per
table index inside a 1 MiB backing file.

Modelling conventions:
* C strings (paths, stored names) are `List Nat` of their non-NUL bytes;
  the terminating NUL is the end of the list.
* Machine integers are `Nat`.  The only place where 32-bit wraparound is
  reachable is `file_count` (incremented/decremented as a `uint32_t`),
  so those two updates are taken modulo `2^32`; every other quantity is
  bounded far below `2^32` on the guarded paths (sizes are at most the
  slot capacity 16334, offsets within the 1 MiB image).  FUSE hands the
  handlers non-negative offsets, which is why offsets are `Nat`.
* The bytes of the backing file's data region are a function
  `Nat → Nat` from absolute file offset to byte; the metadata region is
  represented by the in-memory `Superblock` and file table themselves
  (`fs_sync_metadata` mirrors them to disk wholesale, so the in-memory
  copy is the state).
* Underlying stdio I/O outcomes (`fseek` success, the byte count
  returned by `fread`/`fwrite`) are explicit parameters of `my_read`
  and `my_write`; `time(NULL)` is the explicit parameter `now`.
-/

/-- `FS_SIZE` in `main_fs.c`: total image size, 1 MiB. -/
def FS_SIZE : Nat := 1024 * 1024

/-- `MAX_FILES` in `main_fs.c`. -/
def MAX_FILES : Nat := 64

/-- `NAME_MAX_LEN` in `main_fs.c`. -/
def NAME_MAX_LEN : Nat := 32

/-- `sizeof(Superblock)` with `#pragma pack(1)`: four `uint32_t`. -/
def SUPERBLOCK_BYTES : Nat := 16

/-- `sizeof(FileEntry)` with `#pragma pack(1)`: `uint8_t` + 32-byte name
+ four `uint32_t`. -/
def FILEENTRY_BYTES : Nat := 49

/-- `META_SIZE = sizeof(Superblock) + sizeof(FileEntry) * MAX_FILES`. -/
def META_SIZE : Nat := SUPERBLOCK_BYTES + FILEENTRY_BYTES * MAX_FILES

/-- `DATA_OFFSET` in `main_fs.c` (start of the data region). -/
def DATA_OFFSET : Nat := META_SIZE

/-- `FILE_REGION_SIZE = (FS_SIZE - DATA_OFFSET) / MAX_FILES`: fixed
per-slot capacity (C integer division). -/
def FILE_REGION_SIZE : Nat := (FS_SIZE - DATA_OFFSET) / MAX_FILES

/-- Mask for `uint32_t` arithmetic. -/
def U32 : Nat := 2 ^ 32

/-- The `Superblock` struct of `main_fs.c`. -/
structure Superblock where
  magic : Nat
  version : Nat
  last_alloc : Nat
  file_count : Nat
deriving Repr, DecidableEq

/-- The `FileEntry` struct of `main_fs.c`.  `name` is the stored
C string's bytes (NUL-free). -/
structure FileEntry where
  used : Bool
  name : List Nat
  start : Nat
  size : Nat
  perms : Nat
  mtime : Nat
deriving Repr, DecidableEq

/-- The all-zero `FileEntry` (result of `memset(fe, 0, sizeof *fe)`). -/
def zeroFileEntry : FileEntry :=
  { used := false, name := [], start := 0, size := 0, perms := 0, mtime := 0 }

instance : Inhabited FileEntry := ⟨zeroFileEntry⟩

/-- Error codes the handlers return (as `-errno` in C). -/
inductive Errno where
  | ENOENT
  | ENOSPC
  | EBADF
  | eio
  | ENOTDIR
deriving Repr, DecidableEq

deriving instance DecidableEq for Except

/-- Global state of the filesystem: `g_super`, `g_files`, plus the bytes
of the backing file's data region (offset ↦ byte). -/
structure FS where
  super : Superblock
  files : List FileEntry
  data : Nat → Nat

/-- Skip one leading `'/'` (byte 47), as `find_file_by_name`, `my_open`
and `my_create` do. -/
def stripSlash (p : List Nat) : List Nat :=
  match p with
  | 47 :: rest => rest
  | _ => p

/-- `strncmp(s, q, n) == 0` on NUL-free byte lists: compare at most `n`
bytes, stopping early at a string end (which compares equal only to
another string end). -/
def strncmpEq : List Nat → List Nat → Nat → Bool
  | _, _, 0 => true
  | [], [], _ + 1 => true
  | [], _ :: _, _ + 1 => false
  | _ :: _, [], _ + 1 => false
  | a :: s, b :: q, n + 1 => a == b && strncmpEq s q n

/-- Index of the first list element satisfying `p` (the C linear-scan
idiom `for i … if p(a[i]) return i`). -/
def firstIdx (p : α → Bool) : List α → Option Nat
  | [] => none
  | a :: l => if p a then some 0 else (firstIdx p l).map (· + 1)

/-- `find_file_by_name`: strip a leading `'/'`, then return the first
slot whose entry is used and whose stored name `strncmp`-matches the
query within `NAME_MAX_LEN` bytes. -/
def find_file_by_name (files : List FileEntry) (path : List Nat) : Option Nat :=
  firstIdx (fun fe => fe.used && strncmpEq fe.name (stripSlash path) NAME_MAX_LEN) files

/-- `alloc_file_slot`: first slot with `used == 0`, or none (`-1`). -/
def alloc_file_slot (files : List FileEntry) : Option Nat :=
  firstIdx (fun fe => !fe.used) files

/-- One iteration of the loop in `fs_recompute_last_alloc`: slot `i`
bumps `last` to `DATA_OFFSET + i*FILE_REGION_SIZE + size` when it is
used with positive size and that end exceeds `last`. -/
def lastAllocStep (i last : Nat) (fe : FileEntry) : Nat :=
  if fe.used && decide (0 < fe.size) then
    max last (DATA_OFFSET + i * FILE_REGION_SIZE + fe.size)
  else last

/-- The loop of `fs_recompute_last_alloc`, starting at slot `i` with
accumulator `last`. -/
def lastAllocAux (i last : Nat) : List FileEntry → Nat
  | [] => last
  | fe :: l => lastAllocAux (i + 1) (lastAllocStep i last fe) l

/-- `fs_recompute_last_alloc`: scan the whole table starting from
`last = DATA_OFFSET`. -/
def fs_recompute_last_alloc (files : List FileEntry) : Nat :=
  lastAllocAux 0 DATA_OFFSET files

/-- `fs_format`: zeroed table, zeroed data region, fresh superblock with
`last_alloc = DATA_OFFSET` and `file_count = 0`. -/
def fs_format : FS :=
  { super := { magic := 0xDEADBEEF, version := 1,
               last_alloc := DATA_OFFSET, file_count := 0 },
    files := List.replicate MAX_FILES zeroFileEntry,
    data := fun _ => 0 }

/-- Overwrite `buf.length` bytes of `data` starting at absolute offset
`off` (the effect of a successful `fwrite` at that position). -/
def writeBytes (data : Nat → Nat) (off : Nat) (buf : List Nat) : Nat → Nat :=
  fun a => if off ≤ a ∧ a < off + buf.length then buf.getD (a - off) 0 else data a

/-- `S_IFREG`. -/
def S_IFREG : Nat := 0o100000

/-- `S_IFDIR`. -/
def S_IFDIR : Nat := 0o040000

/-- The fields of `struct stat` that `my_getattr` fills. -/
structure Stat where
  st_mode : Nat
  st_nlink : Nat
  st_size : Nat
  st_mtime : Nat
  st_atime : Nat
  st_ctime : Nat
deriving Repr, DecidableEq

/-- `my_getattr`: root gets `S_IFDIR|0755`, nlink 2; any other path is
resolved by name and reports `S_IFREG|0644`, nlink 1, the entry's size
and its mtime in all three timestamp fields. -/
def my_getattr (fs : FS) (path : List Nat) : Except Errno Stat :=
  if path = [47] then
    .ok { st_mode := S_IFDIR + 0o755, st_nlink := 2, st_size := 0,
          st_mtime := 0, st_atime := 0, st_ctime := 0 }
  else
    match find_file_by_name fs.files path with
    | none => .error .ENOENT
    | some idx =>
      .ok { st_mode := S_IFREG + 0o644, st_nlink := 1,
            st_size := (fs.files.getD idx zeroFileEntry).size,
            st_mtime := (fs.files.getD idx zeroFileEntry).mtime,
            st_atime := (fs.files.getD idx zeroFileEntry).mtime,
            st_ctime := (fs.files.getD idx zeroFileEntry).mtime }

/-- `my_readdir`: only the root is listable; yields `"."`, `".."`, then
every used entry's name in table order. -/
def my_readdir (fs : FS) (path : List Nat) : Except Errno (List (List Nat)) :=
  if path = [47] then
    .ok ([46] :: [46, 46] ::
      fs.files.filterMap (fun fe => if fe.used then some fe.name else none))
  else
    .error .ENOTDIR

/-- `my_create`: if the name resolves, return its slot as the handle
without touching anything; otherwise claim the first free slot (or fail
`ENOSPC`), fill it with the name truncated to `NAME_MAX_LEN - 1` bytes,
size 0, `perms = mode`, `mtime = now`, bump `file_count` (`uint32_t`),
recompute `last_alloc`, persist. -/
def my_create (fs : FS) (path : List Nat) (mode now : Nat) :
    Except Errno Nat × FS :=
  match find_file_by_name fs.files path with
  | some idx => (.ok idx, fs)
  | none =>
    match alloc_file_slot fs.files with
    | none => (.error .ENOSPC, fs)
    | some idx =>
      let fe : FileEntry :=
        { used := true, name := (stripSlash path).take (NAME_MAX_LEN - 1),
          start := 0, size := 0, perms := mode, mtime := now }
      let files' := fs.files.set idx fe
      (.ok idx,
       { super := { fs.super with
                    file_count := (fs.super.file_count + 1) % U32,
                    last_alloc := fs_recompute_last_alloc files' },
         files := files', data := fs.data })

/-- `my_open`: resolve the name; on a miss require `O_CREAT` and then
behave like `my_create` with `perms = 0644`; on a hit with `O_TRUNC`
reset the size to 0 and update `mtime`. The slot index is the handle. -/
def my_open (fs : FS) (path : List Nat) (creatFlag truncFlag : Bool)
    (now : Nat) : Except Errno Nat × FS :=
  match find_file_by_name fs.files path with
  | none =>
    if !creatFlag then (.error .ENOENT, fs)
    else
      match alloc_file_slot fs.files with
      | none => (.error .ENOSPC, fs)
      | some idx =>
        let fe : FileEntry :=
          { used := true, name := (stripSlash path).take (NAME_MAX_LEN - 1),
            start := 0, size := 0, perms := 0o644, mtime := now }
        let files' := fs.files.set idx fe
        (.ok idx,
         { super := { fs.super with
                      file_count := (fs.super.file_count + 1) % U32,
                      last_alloc := fs_recompute_last_alloc files' },
           files := files', data := fs.data })
  | some idx =>
    if truncFlag then
      let fe := fs.files.getD idx zeroFileEntry
      let files' := fs.files.set idx { fe with size := 0, mtime := now }
      (.ok idx,
       { super := { fs.super with
                    last_alloc := fs_recompute_last_alloc files' },
         files := files', data := fs.data })
    else (.ok idx, fs)

/-- `my_read`: validate the handle (`EBADF`), return 0 at or past EOF,
clamp the length to the file size, seek (`EIO` on failure) and return
the count `fread` delivers.  `seekOk` models the `fseek` outcome and
`delivered` the count returned by `fread` (which never exceeds the
requested clamped length, hence the `min`). -/
def my_read (fs : FS) (fh size offset : Nat) (seekOk : Bool)
    (delivered : Nat) : Except Errno Nat :=
  if fh < MAX_FILES ∧ (fs.files.getD fh zeroFileEntry).used then
    let fe := fs.files.getD fh zeroFileEntry
    if fe.size ≤ offset then .ok 0
    else
      let len := if fe.size < offset + size then fe.size - offset else size
      if seekOk then .ok (min delivered len)
      else .error .eio
  else .error .EBADF

/-- `my_write`: validate the handle (`EBADF`); fail `ENOSPC` when
`offset + buf.length` exceeds `FILE_REGION_SIZE`; seek (`EIO` on
failure); `fwrite` puts `written'` bytes at `slot base + offset` (a
short write leaves those bytes in place and fails `EIO`); on a full
write grow `size` to `offset + buf.length` when that exceeds it, stamp
`mtime`, recompute `last_alloc`, persist, and return the byte count. -/
def my_write (fs : FS) (fh : Nat) (buf : List Nat) (offset now : Nat)
    (seekOk : Bool) (written : Nat) : Except Errno Nat × FS :=
  if fh < MAX_FILES ∧ (fs.files.getD fh zeroFileEntry).used then
    if FILE_REGION_SIZE < offset + buf.length then (.error .ENOSPC, fs)
    else
      let file_offset := DATA_OFFSET + fh * FILE_REGION_SIZE + offset
      if seekOk then
        let written' := min written buf.length
        let data' := writeBytes fs.data file_offset (buf.take written')
        if written' = buf.length then
          let fe := fs.files.getD fh zeroFileEntry
          let new_end := offset + buf.length
          let fe' := { fe with
                       size := if fe.size < new_end then new_end else fe.size,
                       mtime := now }
          let files' := fs.files.set fh fe'
          (.ok buf.length,
           { super := { fs.super with
                        last_alloc := fs_recompute_last_alloc files' },
             files := files', data := data' })
        else (.error .eio, { fs with data := data' })
      else (.error .eio, fs)
  else (.error .EBADF, fs)

/-- `my_unlink`: resolve the name (`ENOENT` on a miss), zero the whole
entry, decrement `file_count` (`uint32_t`), recompute `last_alloc`,
persist.  The data region is untouched. -/
def my_unlink (fs : FS) (path : List Nat) : Except Errno Unit × FS :=
  match find_file_by_name fs.files path with
  | none => (.error .ENOENT, fs)
  | some idx =>
    let files' := fs.files.set idx zeroFileEntry
    (.ok (),
     { super := { fs.super with
                  file_count := (fs.super.file_count + (U32 - 1)) % U32,
                  last_alloc := fs_recompute_last_alloc files' },
       files := files', data := fs.data })

/-- `my_truncate`: resolve the name (`ENOENT`), fail `ENOSPC` when the
new size exceeds the slot capacity, else set `size` directly, stamp
`mtime`, recompute, persist. -/
def my_truncate (fs : FS) (path : List Nat) (size now : Nat) :
    Except Errno Unit × FS :=
  match find_file_by_name fs.files path with
  | none => (.error .ENOENT, fs)
  | some idx =>
    if FILE_REGION_SIZE < size then (.error .ENOSPC, fs)
    else
      let fe := fs.files.getD idx zeroFileEntry
      let files' := fs.files.set idx { fe with size := size, mtime := now }
      (.ok (),
       { super := { fs.super with
                    last_alloc := fs_recompute_last_alloc files' },
         files := files', data := fs.data })

/-- The high-water mark as §4.4 of the spec describes it, for the
refinement comparison of claim C5: the maximum of
`DATA_OFFSET + i * FILE_REGION_SIZE + size` over ALL used entries
(zero-size ones included), or `DATA_OFFSET` when none is used. -/
def spec_recompute_last_alloc (files : List FileEntry) : Nat :=
  List.foldl max DATA_OFFSET
    ((List.range files.length).filterMap (fun i =>
      if (files.getD i zeroFileEntry).used then
        some (DATA_OFFSET + i * FILE_REGION_SIZE +
              (files.getD i zeroFileEntry).size)
      else none))

/-- Stored names are pairwise distinct among used entries. -/
abbrev NamesUnique (files : List FileEntry) : Prop :=
  ∀ i, i < files.length → ∀ j, j < files.length → i ≠ j →
    (files.getD i zeroFileEntry).used = true →
    (files.getD j zeroFileEntry).used = true →
    (files.getD i zeroFileEntry).name ≠ (files.getD j zeroFileEntry).name

/-- The state invariant of §3 of the spec (claim C4): the table has its
fixed 64 slots, `file_count` counts the used entries, `last_alloc` never
falls below the data region start, no used entry's size exceeds the slot
capacity, and used entries' names are unique. -/
abbrev FsInv (fs : FS) : Prop :=
  fs.files.length = MAX_FILES ∧
  fs.super.file_count = fs.files.countP (fun fe => fe.used) ∧
  DATA_OFFSET ≤ fs.super.last_alloc ∧
  (∀ fe ∈ fs.files, fe.used = true → fe.size ≤ FILE_REGION_SIZE) ∧
  NamesUnique fs.files

/-- Decidability of `NamesUnique`, via an equivalent form whose guard is
a single boolean conjunction (the default instance search does not
chain enough implications for the raw form). -/
instance (files : List FileEntry) : Decidable (NamesUnique files) :=
  decidable_of_iff
    (∀ i, i < files.length → ∀ j, j < files.length →
      (decide (i ≠ j) && (files.getD i zeroFileEntry).used &&
        (files.getD j zeroFileEntry).used) = true →
      (files.getD i zeroFileEntry).name ≠ (files.getD j zeroFileEntry).name)
    (by
      constructor
      · intro h i hi j hj hne hui huj
        refine h i hi j hj ?_
        simp only [Bool.and_eq_true, decide_eq_true_eq]
        exact ⟨⟨hne, hui⟩, huj⟩
      · intro h i hi j hj hcond
        simp only [Bool.and_eq_true, decide_eq_true_eq] at hcond
        exact h i hi j hj hcond.1.1 hcond.1.2 hcond.2)

/-- Forget an entry's `perms` field (claim C10). -/
def eraseEntryPerms (fe : FileEntry) : FileEntry :=
  { fe with perms := 0 }

/-- Forget every `perms` field of a state (claim C10): two states with
the same erasure differ at most in stored `perms` values. -/
def erasePerms (fs : FS) : FS :=
  { fs with files := fs.files.map eraseEntryPerms }

/-- A concrete state for witnesses: one file `"a"` of size 10 in slot 0
(the state `create "/a"` followed by a 10-byte write at offset 0
produces, with `mtime = 5`). -/
def exFS : FS :=
  { super := { magic := 0xDEADBEEF, version := 1,
               last_alloc := DATA_OFFSET + 10, file_count := 1 },
    files := { used := true, name := [97], start := 0, size := 10,
               perms := 420, mtime := 5 } :: List.replicate 63 zeroFileEntry,
    data := fun _ => 0 }

/-- A concrete state with all 64 slots used (distinct one-byte names,
all sizes 0). -/
def fullFS : FS :=
  { super := { magic := 0xDEADBEEF, version := 1,
               last_alloc := DATA_OFFSET, file_count := 64 },
    files := (List.range MAX_FILES).map (fun i =>
      { used := true, name := [i + 1], start := 0, size := 0,
        perms := 420, mtime := 0 }),
    data := fun _ => 0 }

/-- The 33-byte path `"/aaaaaaaaaaaaaaaaaaaaaaaaaaaaaaaa"` (32 `'a'`
bytes after the slash), whose bare name overflows `NAME_MAX_LEN`. -/
def longPath : List Nat := 47 :: List.replicate 32 97

/-- `exFS` with slot 0's `perms` changed from `420` to `511`: the two
states agree everywhere except in a stored `perms` field (claim C10). -/
def exFS2 : FS :=
  { super := { magic := 0xDEADBEEF, version := 1,
               last_alloc := DATA_OFFSET + 10, file_count := 1 },
    files := { used := true, name := [97], start := 0, size := 10,
               perms := 511, mtime := 5 } :: List.replicate 63 zeroFileEntry,
    data := fun _ => 0 }

example : FILE_REGION_SIZE = 16334 := by decide
example : DATA_OFFSET = 3152 := by decide

/-! ## Helper lemmas: linear scans, table updates, string comparison -/

theorem firstIdx_eq_none_iff (p : α → Bool) (l : List α) :
    firstIdx p l = none ↔ ∀ x ∈ l, p x = false := by
  induction l with
  | nil => simp [firstIdx]
  | cons a l ih =>
    by_cases h : p a
    · simp [firstIdx, h]
    · simp only [firstIdx, h, if_neg, Bool.false_eq_true, if_false,
        Option.map_eq_none', List.mem_cons]
      constructor
      · intro hn x hx
        rcases hx with hx | hx
        · subst hx; exact Bool.eq_false_iff.mpr h
        · exact (ih.mp hn) x hx
      · intro hall
        exact ih.mpr (fun x hx => hall x (Or.inr hx))

theorem firstIdx_lt_length (p : α → Bool) (l : List α) (i : Nat)
    (h : firstIdx p l = some i) : i < l.length := by
  induction l generalizing i with
  | nil => simp [firstIdx] at h
  | cons a l ih =>
    by_cases hp : p a
    · simp [firstIdx, hp] at h
      subst h; simp
    · simp only [firstIdx, hp, Bool.false_eq_true, if_false,
        Option.map_eq_some'] at h
      rcases h with ⟨j, hj, rfl⟩
      have := ih j hj
      simpa using Nat.succ_lt_succ this

theorem firstIdx_prop (p : α → Bool) (l : List α) (i : Nat) (d : α)
    (h : firstIdx p l = some i) : p (l.getD i d) = true := by
  induction l generalizing i with
  | nil => simp [firstIdx] at h
  | cons a l ih =>
    by_cases hp : p a
    · simp [firstIdx, hp] at h
      subst h; simpa using hp
    · simp only [firstIdx, hp, Bool.false_eq_true, if_false,
        Option.map_eq_some'] at h
      rcases h with ⟨j, hj, rfl⟩
      simpa [List.getD_cons_succ] using ih j hj

theorem firstIdx_first (p : α → Bool) (l : List α) (i : Nat) (d : α)
    (h : firstIdx p l = some i) :
    ∀ j, j < i → p (l.getD j d) = false := by
  induction l generalizing i with
  | nil => simp [firstIdx] at h
  | cons a l ih =>
    by_cases hp : p a
    · simp [firstIdx, hp] at h
      subst h; intro j hj; exact absurd hj (Nat.not_lt_zero j)
    · simp only [firstIdx, hp, Bool.false_eq_true, if_false,
        Option.map_eq_some'] at h
      rcases h with ⟨k, hk, rfl⟩
      intro j hj
      cases j with
      | zero => simpa using Bool.eq_false_iff.mpr hp
      | succ j =>
        simp only [List.getD_cons_succ]
        exact ih k hk j (Nat.lt_of_succ_lt_succ hj)

theorem firstIdx_eq_some_of (p : α → Bool) (l : List α) (i : Nat) (d : α)
    (hlt : i < l.length) (hp : p (l.getD i d) = true)
    (hfst : ∀ j, j < i → p (l.getD j d) = false) :
    firstIdx p l = some i := by
  induction l generalizing i with
  | nil => simp at hlt
  | cons a l ih =>
    cases i with
    | zero =>
      simp only [List.getD_cons_zero] at hp
      simp [firstIdx, hp]
    | succ i =>
      have h0 : p a = false := by simpa using hfst 0 (Nat.succ_pos i)
      simp only [firstIdx, h0, Bool.false_eq_true, if_false]
      have := ih i (by simpa using Nat.lt_of_succ_lt_succ hlt)
        (by simpa [List.getD_cons_succ] using hp)
        (fun j hj => by
          simpa [List.getD_cons_succ] using hfst (j + 1) (Nat.succ_lt_succ hj))
      simp [this]

theorem getD_set_self (l : List α) (i : Nat) (a d : α) (h : i < l.length) :
    (l.set i a).getD i d = a := by
  induction l generalizing i with
  | nil => simp at h
  | cons x l ih =>
    cases i with
    | zero => simp
    | succ i =>
      simp only [List.set_cons_succ, List.getD_cons_succ]
      exact ih i (by simpa using Nat.lt_of_succ_lt_succ h)

theorem getD_set_other (l : List α) (i j : Nat) (a d : α) (h : i ≠ j) :
    (l.set i a).getD j d = l.getD j d := by
  induction l generalizing i j with
  | nil => simp
  | cons x l ih =>
    cases i with
    | zero =>
      cases j with
      | zero => exact absurd rfl h
      | succ j => simp
    | succ i =>
      cases j with
      | zero => simp
      | succ j =>
        simp only [List.set_cons_succ, List.getD_cons_succ]
        exact ih i j (fun hc => h (by simp [hc]))

theorem getD_mem (l : List α) (i : Nat) (d : α) (h : i < l.length) :
    l.getD i d ∈ l := by
  induction l generalizing i with
  | nil => simp at h
  | cons x l ih =>
    cases i with
    | zero => simp
    | succ i =>
      simp only [List.getD_cons_succ]
      exact List.mem_cons_of_mem x (ih i (by simpa using Nat.lt_of_succ_lt_succ h))

theorem countP_set_grow (p : α → Bool) (l : List α) (i : Nat) (a d : α)
    (h : i < l.length) (hold : p (l.getD i d) = false) (hnew : p a = true) :
    (l.set i a).countP p = l.countP p + 1 := by
  induction l generalizing i with
  | nil => simp at h
  | cons x l ih =>
    cases i with
    | zero =>
      simp only [List.getD_cons_zero] at hold
      simp [List.countP_cons, hold, hnew, Nat.add_assoc]
    | succ i =>
      simp only [List.getD_cons_succ] at hold
      have := ih i (by simpa using Nat.lt_of_succ_lt_succ h) hold
      simp only [List.set_cons_succ, List.countP_cons, this]
      omega

theorem countP_set_shrink (p : α → Bool) (l : List α) (i : Nat) (a d : α)
    (h : i < l.length) (hold : p (l.getD i d) = true) (hnew : p a = false) :
    l.countP p = (l.set i a).countP p + 1 := by
  induction l generalizing i with
  | nil => simp at h
  | cons x l ih =>
    cases i with
    | zero =>
      simp only [List.getD_cons_zero] at hold
      simp [List.countP_cons, hold, hnew, Nat.add_assoc]
    | succ i =>
      simp only [List.getD_cons_succ] at hold
      have := ih i (by simpa using Nat.lt_of_succ_lt_succ h) hold
      simp only [List.set_cons_succ, List.countP_cons, this]
      omega

theorem countP_set_same (p : α → Bool) (l : List α) (i : Nat) (a d : α)
    (h : i < l.length) (hsame : p (l.getD i d) = p a) :
    (l.set i a).countP p = l.countP p := by
  induction l generalizing i with
  | nil => simp at h
  | cons x l ih =>
    cases i with
    | zero =>
      simp only [List.getD_cons_zero] at hsame
      simp [List.countP_cons, hsame]
    | succ i =>
      simp only [List.getD_cons_succ] at hsame
      have := ih i (by simpa using Nat.lt_of_succ_lt_succ h) hsame
      simp [List.set_cons_succ, List.countP_cons, this]

theorem strncmpEq_refl (s : List Nat) (n : Nat) : strncmpEq s s n = true := by
  induction s generalizing n with
  | nil => cases n <;> simp [strncmpEq]
  | cons a s ih =>
    cases n with
    | zero => simp [strncmpEq]
    | succ n => simp [strncmpEq, ih]

theorem strncmpEq_false_of_shorter (s q : List Nat) (n : Nat)
    (hs : s.length < n) (hq : s.length < q.length) :
    strncmpEq s q n = false := by
  induction s generalizing q n with
  | nil =>
    cases q with
    | nil => simp at hq
    | cons b q =>
      cases n with
      | zero => simp at hs
      | succ n => simp [strncmpEq]
  | cons a s ih =>
    cases q with
    | nil => simp at hq
    | cons b q =>
      cases n with
      | zero => simp at hs
      | succ n =>
        have := ih q n (by simpa using Nat.lt_of_succ_lt_succ hs)
          (by simpa using Nat.lt_of_succ_lt_succ hq)
        simp [strncmpEq, this]

/-! ## Helper lemmas: the high-water-mark loop -/

theorem le_lastAllocStep (i last : Nat) (fe : FileEntry) :
    last ≤ lastAllocStep i last fe := by
  unfold lastAllocStep
  by_cases h : fe.used && decide (0 < fe.size)
  · simp [h, Nat.le_max_left]
  · simp [h]

theorem le_lastAllocAux (l : List FileEntry) (i last : Nat) :
    last ≤ lastAllocAux i last l := by
  induction l generalizing i last with
  | nil => simp [lastAllocAux]
  | cons fe l ih =>
    calc last ≤ lastAllocStep i last fe := le_lastAllocStep i last fe
    _ ≤ lastAllocAux (i + 1) (lastAllocStep i last fe) l := ih _ _

theorem lastAllocAux_contrib (l : List FileEntry) (i last j : Nat)
    (hj : j < l.length) (hused : (l.getD j zeroFileEntry).used = true)
    (hpos : 0 < (l.getD j zeroFileEntry).size) :
    DATA_OFFSET + (i + j) * FILE_REGION_SIZE + (l.getD j zeroFileEntry).size ≤
      lastAllocAux i last l := by
  induction l generalizing i last j with
  | nil => simp at hj
  | cons fe l ih =>
    cases j with
    | zero =>
      simp only [List.getD_cons_zero] at hused hpos ⊢
      have hstep : DATA_OFFSET + i * FILE_REGION_SIZE + fe.size ≤
          lastAllocStep i last fe := by
        unfold lastAllocStep
        simp [hused, hpos, Nat.le_max_right]
      calc DATA_OFFSET + (i + 0) * FILE_REGION_SIZE + fe.size
          = DATA_OFFSET + i * FILE_REGION_SIZE + fe.size := by ring_nf
      _ ≤ lastAllocStep i last fe := hstep
      _ ≤ lastAllocAux (i + 1) (lastAllocStep i last fe) l :=
          le_lastAllocAux l _ _
    | succ j =>
      simp only [List.getD_cons_succ] at hused hpos ⊢
      have := ih (i + 1) (lastAllocStep i last fe) j
        (by simpa using Nat.lt_of_succ_lt_succ hj) hused hpos
      have harith : i + 1 + j = i + (j + 1) := by omega
      rw [harith] at this
      exact this

theorem lastAllocAux_cons (i last : Nat) (fe : FileEntry) (l : List FileEntry) :
    lastAllocAux i last (fe :: l) =
      lastAllocAux (i + 1) (lastAllocStep i last fe) l := rfl

theorem lastAllocAux_cases (l : List FileEntry) (i last : Nat) :
    lastAllocAux i last l = last ∨
    ∃ j, j < l.length ∧ (l.getD j zeroFileEntry).used = true ∧
      0 < (l.getD j zeroFileEntry).size ∧
      lastAllocAux i last l =
        DATA_OFFSET + (i + j) * FILE_REGION_SIZE + (l.getD j zeroFileEntry).size := by
  induction l generalizing i last with
  | nil => left; rfl
  | cons fe l ih =>
    rw [lastAllocAux_cons]
    rcases ih (i + 1) (lastAllocStep i last fe) with h | ⟨j, hj, hused, hpos, heq⟩
    · rw [h]
      by_cases hc : fe.used && decide (0 < fe.size)
      · rcases Bool.and_eq_true_iff.mp hc with ⟨hu, hs⟩
        simp only [lastAllocStep, hc, if_true]
        rcases Nat.le_total (DATA_OFFSET + i * FILE_REGION_SIZE + fe.size) last with hle | hle
        · left; exact Nat.max_eq_left hle
        · right
          refine ⟨0, by simp, ?_, ?_, ?_⟩
          · simpa using hu
          · simpa using of_decide_eq_true hs
          · simp only [List.getD_cons_zero]
            have h0 : i + 0 = i := by omega
            rw [h0]
            exact Nat.max_eq_right hle
      · left
        simp [lastAllocStep, hc]
    · right
      refine ⟨j + 1, by simpa using Nat.succ_lt_succ hj, by simpa using hused,
        by simpa using hpos, ?_⟩
      rw [heq]
      have harith : i + 1 + j = i + (j + 1) := by omega
      rw [harith]
      simp [List.getD_cons_succ]

theorem lastAllocAux_congr (l₁ l₂ : List FileEntry)
    (h : List.Forall₂ (fun a b => a.used = b.used ∧ a.size = b.size) l₁ l₂)
    (i last : Nat) : lastAllocAux i last l₁ = lastAllocAux i last l₂ := by
  induction h generalizing i last with
  | nil => rfl
  | @cons a b la lb hab htl ih =>
    rw [lastAllocAux_cons, lastAllocAux_cons]
    have hstep : lastAllocStep i last a = lastAllocStep i last b := by
      unfold lastAllocStep
      rw [hab.1, hab.2]
    rw [hstep]
    exact ih _ _

/-! ## Helper lemmas: pointwise-related tables -/

theorem forall₂_getD {R : α → β → Prop} (l₁ : List α) (l₂ : List β)
    (h : List.Forall₂ R l₁ l₂) (d₁ : α) (d₂ : β) (hd : R d₁ d₂) (j : Nat) :
    R (l₁.getD j d₁) (l₂.getD j d₂) := by
  induction h generalizing j with
  | nil => exact hd
  | cons hab _ ih =>
    cases j with
    | zero => simp only [List.getD_cons_zero]; exact hab
    | succ j => simp only [List.getD_cons_succ]; exact ih j

theorem forall₂_set {R : α → β → Prop} (l₁ : List α) (l₂ : List β)
    (h : List.Forall₂ R l₁ l₂) (a : α) (b : β) (hab : R a b) (i : Nat) :
    List.Forall₂ R (l₁.set i a) (l₂.set i b) := by
  induction h generalizing i with
  | nil => exact List.Forall₂.nil
  | cons hxy htl ih =>
    cases i with
    | zero => simpa using List.Forall₂.cons hab htl
    | succ i => simpa using List.Forall₂.cons hxy (ih i)

theorem firstIdx_congr {R : α → β → Prop} (p : α → Bool) (q : β → Bool)
    (l₁ : List α) (l₂ : List β) (h : List.Forall₂ R l₁ l₂)
    (hpq : ∀ a b, R a b → p a = q b) :
    firstIdx p l₁ = firstIdx q l₂ := by
  induction h with
  | nil => rfl
  | cons hab _ ih =>
    show firstIdx p (_ :: _) = firstIdx q (_ :: _)
    unfold firstIdx
    rw [hpq _ _ hab, ih]

theorem forall₂_of_map_eq (f : α → β) (l₁ l₂ : List α)
    (h : l₁.map f = l₂.map f) :
    List.Forall₂ (fun a b => f a = f b) l₁ l₂ := by
  induction l₁ generalizing l₂ with
  | nil =>
    cases l₂ with
    | nil => exact List.Forall₂.nil
    | cons b l₂ => simp at h
  | cons a l₁ ih =>
    cases l₂ with
    | nil => simp at h
    | cons b l₂ =>
      simp only [List.map_cons, List.cons.injEq] at h
      exact List.Forall₂.cons h.1 (ih l₂ h.2)

theorem map_eq_of_forall₂ (f : α → β) (l₁ l₂ : List α)
    (h : List.Forall₂ (fun a b => f a = f b) l₁ l₂) :
    l₁.map f = l₂.map f := by
  induction h with
  | nil => rfl
  | cons hab _ ih => simp [hab, ih]

theorem FS_ext (s t : FS) (h1 : s.super = t.super) (h2 : s.files = t.files)
    (h3 : s.data = t.data) : s = t := by
  cases s; cases t
  simp only at h1 h2 h3
  rw [h1, h2, h3]

/-! ## Helper lemmas: data-region writes and handle validity -/

theorem writeBytes_at (data : Nat → Nat) (off : Nat) (buf : List Nat)
    (a : Nat) (h : a < buf.length) :
    writeBytes data off buf (off + a) = buf.getD a 0 := by
  unfold writeBytes
  have hc : off ≤ off + a ∧ off + a < off + buf.length :=
    ⟨Nat.le_add_right off a, by omega⟩
  rw [if_pos hc]
  congr 1
  omega

theorem writeBytes_frame (data : Nat → Nat) (off : Nat) (buf : List Nat)
    (a : Nat) (h : a < off ∨ off + buf.length ≤ a) :
    writeBytes data off buf a = data a := by
  unfold writeBytes
  rw [if_neg]
  omega

theorem lt_length_of_getD_used (l : List FileEntry) (i : Nat)
    (h : (l.getD i zeroFileEntry).used = true) : i < l.length := by
  by_contra hc
  rw [List.getD_eq_default l zeroFileEntry (Nat.le_of_not_lt hc)] at h
  simp [zeroFileEntry] at h

/-! ## Claim C2: EOF semantics of `my_read` -/

/-- C2: for every valid handle with current size `S` and every read
request `(size, offset)`: if `offset ≥ S` the read returns zero bytes
and no error (whatever the underlying I/O would do); if
`offset < S < offset + size` the request is clamped to `S - offset`
bytes and, assuming the underlying I/O delivers that clamped count, the
read returns exactly `S - offset`. -/
theorem C2_read_eof_and_clamp (fs : FS) (fh size offset : Nat)
    (seekOk : Bool) (delivered : Nat)
    (hv : fh < MAX_FILES ∧ (fs.files.getD fh zeroFileEntry).used = true) :
    ((fs.files.getD fh zeroFileEntry).size ≤ offset →
      my_read fs fh size offset seekOk delivered = .ok 0) ∧
    (offset < (fs.files.getD fh zeroFileEntry).size →
      (fs.files.getD fh zeroFileEntry).size < offset + size →
      my_read fs fh size offset true
          ((fs.files.getD fh zeroFileEntry).size - offset) =
        .ok ((fs.files.getD fh zeroFileEntry).size - offset)) := by
  constructor
  · intro h
    unfold my_read
    rw [if_pos hv, if_pos h]
  · intro h1 h2
    unfold my_read
    rw [if_pos hv, if_neg (by omega)]
    simp only [if_pos h2, if_true]
    rw [Nat.min_self]

/-- Witness for C2 at a concrete input: in `exFS` the file in slot 0 has
size 10; a read of 5 bytes at offset 12 hits EOF and returns 0 bytes,
and a read of 20 bytes at offset 4 is clamped to 6. -/
theorem C2_read_eof_and_clamp_witness :
    (0 < MAX_FILES ∧ (exFS.files.getD 0 zeroFileEntry).used = true) ∧
    my_read exFS 0 5 12 true 0 = .ok 0 ∧
    my_read exFS 0 20 4 true 6 = .ok 6 := by
  refine ⟨by decide, ?_, ?_⟩
  · exact (C2_read_eof_and_clamp exFS 0 5 12 true 0 (by decide)).1 (by decide)
  · exact (C2_read_eof_and_clamp exFS 0 20 4 true 6 (by decide)).2
      (by decide) (by decide)

/-! ## Claim C7: short underlying reads (corrected) -/

/-- C7 as stated is false: with a valid handle and an in-bounds request
(10 bytes at offset 0 of the 10-byte file in `exFS`), an underlying
`fread` that delivers only 5 bytes makes `my_read` return the short
count `5` — not an I/O-failure error. -/
theorem C7_counterexample :
    my_read exFS 0 10 0 true 5 = .ok 5 ∧
    my_read exFS 0 10 0 true 5 ≠ .error Errno.eio := by
  constructor
  · decide
  · decide

/-- C7 (amended): when the underlying storage delivers fewer bytes than
the clamped requested length, `my_read` returns that short byte count
as a success; an I/O-failure error is reported only when the underlying
seek fails. -/
theorem C7_short_read_returned (fs : FS) (fh size offset delivered : Nat)
    (hv : fh < MAX_FILES ∧ (fs.files.getD fh zeroFileEntry).used = true)
    (hoff : offset < (fs.files.getD fh zeroFileEntry).size)
    (hdel : delivered ≤
      (if (fs.files.getD fh zeroFileEntry).size < offset + size then
        (fs.files.getD fh zeroFileEntry).size - offset else size)) :
    my_read fs fh size offset true delivered = .ok delivered ∧
    my_read fs fh size offset false delivered = .error .eio := by
  constructor
  · unfold my_read
    rw [if_pos hv, if_neg (by omega)]
    simp only [if_true]
    rw [Nat.min_eq_left hdel]
  · unfold my_read
    rw [if_pos hv, if_neg (by omega)]
    simp

/-- Witness for the amended C7 at a concrete input: reading 10 bytes at
offset 0 of the 10-byte file in `exFS` with only 5 bytes delivered
returns `5`. -/
theorem C7_short_read_returned_witness :
    (0 < MAX_FILES ∧ (exFS.files.getD 0 zeroFileEntry).used = true) ∧
    my_read exFS 0 10 0 true 5 = .ok 5 := by
  refine ⟨by decide, ?_⟩
  exact (C7_short_read_returned exFS 0 10 0 5 (by decide) (by decide)
    (by decide)).1

/-! ## Evaluation lemmas for `my_write` -/

theorem my_write_eval_enospc (fs : FS) (fh : Nat) (buf : List Nat)
    (offset now : Nat) (seekOk : Bool) (written : Nat)
    (hv : fh < MAX_FILES ∧ (fs.files.getD fh zeroFileEntry).used = true)
    (hov : FILE_REGION_SIZE < offset + buf.length) :
    my_write fs fh buf offset now seekOk written = (.error .ENOSPC, fs) := by
  unfold my_write
  rw [if_pos hv, if_pos hov]

theorem my_write_eval_ok (fs : FS) (fh : Nat) (buf : List Nat)
    (offset now : Nat)
    (hv : fh < MAX_FILES ∧ (fs.files.getD fh zeroFileEntry).used = true)
    (hfit : offset + buf.length ≤ FILE_REGION_SIZE) :
    my_write fs fh buf offset now true buf.length =
      (.ok buf.length,
       { super := { fs.super with
           last_alloc := fs_recompute_last_alloc
             (fs.files.set fh
               { fs.files.getD fh zeroFileEntry with
                 size := if (fs.files.getD fh zeroFileEntry).size <
                     offset + buf.length then offset + buf.length
                   else (fs.files.getD fh zeroFileEntry).size,
                 mtime := now }) },
         files := fs.files.set fh
           { fs.files.getD fh zeroFileEntry with
             size := if (fs.files.getD fh zeroFileEntry).size <
                 offset + buf.length then offset + buf.length
               else (fs.files.getD fh zeroFileEntry).size,
             mtime := now },
         data := writeBytes fs.data
           (DATA_OFFSET + fh * FILE_REGION_SIZE + offset) buf }) := by
  unfold my_write
  rw [if_pos hv, if_neg (by omega)]
  simp only [Nat.min_self, List.take_length, eq_self_iff_true, if_true]

theorem my_write_not_enospc (fs : FS) (fh : Nat) (buf : List Nat)
    (offset now : Nat) (seekOk : Bool) (written : Nat)
    (hfit : ¬ FILE_REGION_SIZE < offset + buf.length) :
    (my_write fs fh buf offset now seekOk written).1 ≠ .error .ENOSPC := by
  unfold my_write
  by_cases hv : fh < MAX_FILES ∧ (fs.files.getD fh zeroFileEntry).used = true
  · rw [if_pos hv, if_neg hfit]
    cases seekOk with
    | false => simp
    | true =>
      by_cases hw : min written buf.length = buf.length
      · simp [hw]
      · simp [hw]
  · rw [if_neg hv]
    simp

/-! ## Claim C1: capacity-guarded write -/

/-- C1: for every valid handle, offset and byte buffer of length `L`:
`my_write` fails with no-space exactly when `offset + L` exceeds
`FILE_REGION_SIZE`, and then changes nothing; otherwise, when the
underlying I/O succeeds (seek ok, all `L` bytes written), it writes the
`L` buffer bytes at `slot base + offset` leaving all other data bytes
unchanged, sets the entry's size to `max (old size) (offset + L)` (an
interior write never shrinks it), sets its mtime, and returns `L`. -/
theorem C1_write_capacity_and_effect (fs : FS) (fh : Nat) (buf : List Nat)
    (offset now : Nat) (seekOk : Bool) (written : Nat)
    (hv : fh < MAX_FILES ∧ (fs.files.getD fh zeroFileEntry).used = true) :
    ((my_write fs fh buf offset now seekOk written).1 = .error .ENOSPC ↔
      FILE_REGION_SIZE < offset + buf.length) ∧
    (FILE_REGION_SIZE < offset + buf.length →
      my_write fs fh buf offset now seekOk written = (.error .ENOSPC, fs)) ∧
    (offset + buf.length ≤ FILE_REGION_SIZE →
      (my_write fs fh buf offset now true buf.length).1 = .ok buf.length ∧
      (∀ a, a < buf.length →
        (my_write fs fh buf offset now true buf.length).2.data
            (DATA_OFFSET + fh * FILE_REGION_SIZE + offset + a) =
          buf.getD a 0) ∧
      (∀ a, a < DATA_OFFSET + fh * FILE_REGION_SIZE + offset ∨
            DATA_OFFSET + fh * FILE_REGION_SIZE + offset + buf.length ≤ a →
        (my_write fs fh buf offset now true buf.length).2.data a =
          fs.data a) ∧
      ((my_write fs fh buf offset now true buf.length).2.files.getD fh
          zeroFileEntry).size =
        max (fs.files.getD fh zeroFileEntry).size (offset + buf.length) ∧
      ((my_write fs fh buf offset now true buf.length).2.files.getD fh
          zeroFileEntry).mtime = now) := by
  have hlen : fh < fs.files.length := lt_length_of_getD_used _ _ hv.2
  refine ⟨?_, ?_, ?_⟩
  · constructor
    · intro h
      by_contra hov
      exact my_write_not_enospc fs fh buf offset now seekOk written hov h
    · intro hov
      rw [my_write_eval_enospc fs fh buf offset now seekOk written hv hov]
  · intro hov
    exact my_write_eval_enospc fs fh buf offset now seekOk written hv hov
  · intro hfit
    rw [my_write_eval_ok fs fh buf offset now hv hfit]
    refine ⟨rfl, ?_, ?_, ?_, ?_⟩
    · intro a ha
      exact writeBytes_at fs.data _ buf a ha
    · intro a ha
      exact writeBytes_frame fs.data _ buf a ha
    · show ((fs.files.set fh _).getD fh zeroFileEntry).size = _
      rw [getD_set_self fs.files fh _ zeroFileEntry hlen]
      by_cases hg : (fs.files.getD fh zeroFileEntry).size < offset + buf.length
      · simp only [if_pos hg]
        exact (Nat.max_eq_right (Nat.le_of_lt hg)).symm
      · simp only [if_neg hg]
        exact (Nat.max_eq_left (Nat.le_of_not_lt hg)).symm
    · show ((fs.files.set fh _).getD fh zeroFileEntry).mtime = now
      rw [getD_set_self fs.files fh _ zeroFileEntry hlen]

/-- Witness for C1 at a concrete input: in `exFS`, writing 3 bytes at
offset 16332 of slot 0 overflows the 16334-byte slot and fails with
no-space leaving the state unchanged, while writing the same 3 bytes at
offset 4 succeeds and returns 3. -/
theorem C1_write_capacity_and_effect_witness :
    (0 < MAX_FILES ∧ (exFS.files.getD 0 zeroFileEntry).used = true) ∧
    my_write exFS 0 [1, 2, 3] 16332 9 true 3 = (.error .ENOSPC, exFS) ∧
    (my_write exFS 0 [1, 2, 3] 4 9 true 3).1 = .ok 3 := by
  refine ⟨by decide, ?_, ?_⟩
  · exact (C1_write_capacity_and_effect exFS 0 [1, 2, 3] 16332 9 true 3
      (by decide)).2.1 (by decide)
  · exact ((C1_write_capacity_and_effect exFS 0 [1, 2, 3] 4 9 true 3
      (by decide)).2.2 (by decide)).1

/-! ## Evaluation lemmas for `my_unlink` -/

theorem my_unlink_eval_none (fs : FS) (path : List Nat)
    (h : find_file_by_name fs.files path = none) :
    my_unlink fs path = (.error .ENOENT, fs) := by
  unfold my_unlink
  rw [h]

theorem my_unlink_eval_some (fs : FS) (path : List Nat) (k : Nat)
    (h : find_file_by_name fs.files path = some k) :
    my_unlink fs path =
      (.ok (),
       { super := { fs.super with
           file_count := (fs.super.file_count + (U32 - 1)) % U32,
           last_alloc := fs_recompute_last_alloc
             (fs.files.set k zeroFileEntry) },
         files := fs.files.set k zeroFileEntry,
         data := fs.data }) := by
  unfold my_unlink
  rw [h]

/-! ## Claim C8: unlink zeroes the entry and frames everything else -/

/-- C8: for every existing name, `my_unlink` zeroes that entry's whole
record, decrements `file_count` by one, and leaves every other
file-table entry and every byte of the data region (including the
unlinked slot's own bytes) unchanged; for a missing name it fails with
not-found and changes nothing.  The two counter bounds express that the
`uint32_t` decrement does not wrap. -/
theorem C8_unlink_zeroes_entry_frames_rest (fs : FS) (path : List Nat)
    (hc1 : 0 < fs.super.file_count) (hc2 : fs.super.file_count < U32) :
    (find_file_by_name fs.files path = none →
      my_unlink fs path = (.error .ENOENT, fs)) ∧
    (∀ k, find_file_by_name fs.files path = some k →
      (my_unlink fs path).1 = .ok () ∧
      (my_unlink fs path).2.files.getD k zeroFileEntry = zeroFileEntry ∧
      (∀ j, j ≠ k → (my_unlink fs path).2.files.getD j zeroFileEntry =
        fs.files.getD j zeroFileEntry) ∧
      (my_unlink fs path).2.data = fs.data ∧
      (my_unlink fs path).2.super.file_count = fs.super.file_count - 1) := by
  constructor
  · intro h
    exact my_unlink_eval_none fs path h
  · intro k hk
    have hklen : k < fs.files.length := firstIdx_lt_length _ _ k hk
    rw [my_unlink_eval_some fs path k hk]
    refine ⟨rfl, ?_, ?_, rfl, ?_⟩
    · exact getD_set_self fs.files k zeroFileEntry zeroFileEntry hklen
    · intro j hj
      exact getD_set_other fs.files k j zeroFileEntry zeroFileEntry
        (fun hc => hj hc.symm)
    · show (fs.super.file_count + (U32 - 1)) % U32 = fs.super.file_count - 1
      simp only [U32] at hc2 ⊢
      omega

/-- Witness for C8 at a concrete input: unlinking `"/a"` from `exFS`
succeeds, zeroes slot 0, and drops `file_count` from 1 to 0. -/
theorem C8_unlink_zeroes_entry_frames_rest_witness :
    (0 < exFS.super.file_count ∧ exFS.super.file_count < U32 ∧
      find_file_by_name exFS.files [47, 97] = some 0) ∧
    (my_unlink exFS [47, 97]).1 = .ok () ∧
    (my_unlink exFS [47, 97]).2.files.getD 0 zeroFileEntry = zeroFileEntry ∧
    (my_unlink exFS [47, 97]).2.super.file_count = 0 := by
  refine ⟨by decide, ?_⟩
  have h := (C8_unlink_zeroes_entry_frames_rest exFS [47, 97] (by decide)
    (by decide)).2 0 (by decide)
  exact ⟨h.1, h.2.1, h.2.2.2.2⟩

/-! ## Claim C5: the high-water mark (corrected) -/

/-- C5 as stated is false: in a table whose only used entry sits in slot
1 with size 0, the spec's formula (every used entry contributes,
including zero-size ones) yields `DATA_OFFSET + 1 * FILE_REGION_SIZE =
19486`, but `fs_recompute_last_alloc` — whose loop requires
`size > 0` — yields `DATA_OFFSET = 3152`. -/
theorem C5_counterexample :
    fs_recompute_last_alloc
        (zeroFileEntry ::
          { used := true, name := [98], start := 0, size := 0, perms := 0,
            mtime := 0 } :: List.replicate 62 zeroFileEntry) = 3152 ∧
    spec_recompute_last_alloc
        (zeroFileEntry ::
          { used := true, name := [98], start := 0, size := 0, perms := 0,
            mtime := 0 } :: List.replicate 62 zeroFileEntry) = 19486 ∧
    (3152 : Nat) ≠ 19486 := by
  refine ⟨by decide, by decide, by decide⟩

/-- C5 (amended): `fs_recompute_last_alloc` returns the maximum of
`DATA_OFFSET + slot * FILE_REGION_SIZE + size` over the used entries
with positive size, or `DATA_OFFSET` when there is no such entry:
it is an upper bound of `DATA_OFFSET` and of every such contribution,
and it equals `DATA_OFFSET` or one of them.  Used entries whose size is
zero are skipped, contrary to the spec's wording. -/
theorem C5_recompute_high_water_mark (files : List FileEntry) :
    DATA_OFFSET ≤ fs_recompute_last_alloc files ∧
    (∀ j, j < files.length → (files.getD j zeroFileEntry).used = true →
      0 < (files.getD j zeroFileEntry).size →
      DATA_OFFSET + j * FILE_REGION_SIZE +
          (files.getD j zeroFileEntry).size ≤
        fs_recompute_last_alloc files) ∧
    (fs_recompute_last_alloc files = DATA_OFFSET ∨
      ∃ j, j < files.length ∧ (files.getD j zeroFileEntry).used = true ∧
        0 < (files.getD j zeroFileEntry).size ∧
        fs_recompute_last_alloc files =
          DATA_OFFSET + j * FILE_REGION_SIZE +
            (files.getD j zeroFileEntry).size) := by
  refine ⟨le_lastAllocAux files 0 DATA_OFFSET, ?_, ?_⟩
  · intro j hj hused hpos
    have := lastAllocAux_contrib files 0 DATA_OFFSET j hj hused hpos
    simpa [Nat.zero_add] using this
  · rcases lastAllocAux_cases files 0 DATA_OFFSET with h | ⟨j, hj, hu, hp, he⟩
    · left; exact h
    · right
      refine ⟨j, hj, hu, hp, ?_⟩
      simpa [Nat.zero_add] using he

/-- Witness for the amended C5 at a concrete input: in `exFS` (one used
file of size 10 in slot 0) the recomputed mark is reachable through the
theorem's bounds at slot 0. -/
theorem C5_recompute_high_water_mark_witness :
    (0 < exFS.files.length ∧ (exFS.files.getD 0 zeroFileEntry).used = true ∧
      0 < (exFS.files.getD 0 zeroFileEntry).size) ∧
    DATA_OFFSET ≤ fs_recompute_last_alloc exFS.files ∧
    DATA_OFFSET + 0 * FILE_REGION_SIZE +
        (exFS.files.getD 0 zeroFileEntry).size ≤
      fs_recompute_last_alloc exFS.files := by
  refine ⟨by decide, (C5_recompute_high_water_mark exFS.files).1, ?_⟩
  exact (C5_recompute_high_water_mark exFS.files).2.1 0 (by decide)
    (by decide) (by decide)

/-! ## Evaluation lemmas for `my_create` -/

theorem my_create_eval_found (fs : FS) (path : List Nat) (mode now idx : Nat)
    (h : find_file_by_name fs.files path = some idx) :
    my_create fs path mode now = (.ok idx, fs) := by
  unfold my_create
  rw [h]

theorem my_create_eval_full (fs : FS) (path : List Nat) (mode now : Nat)
    (h1 : find_file_by_name fs.files path = none)
    (h2 : alloc_file_slot fs.files = none) :
    my_create fs path mode now = (.error .ENOSPC, fs) := by
  unfold my_create
  rw [h1, h2]

theorem my_create_eval_new (fs : FS) (path : List Nat) (mode now idx : Nat)
    (h1 : find_file_by_name fs.files path = none)
    (h2 : alloc_file_slot fs.files = some idx) :
    my_create fs path mode now =
      (.ok idx,
       { super := { fs.super with
           file_count := (fs.super.file_count + 1) % U32,
           last_alloc := fs_recompute_last_alloc
             (fs.files.set idx
               { used := true,
                 name := (stripSlash path).take (NAME_MAX_LEN - 1),
                 start := 0, size := 0, perms := mode, mtime := now }) },
         files := fs.files.set idx
           { used := true,
             name := (stripSlash path).take (NAME_MAX_LEN - 1),
             start := 0, size := 0, perms := mode, mtime := now },
         data := fs.data }) := by
  unfold my_create
  rw [h1, h2]

theorem find_after_create_short (fs : FS) (path : List Nat)
    (mode now idx : Nat)
    (h1 : find_file_by_name fs.files path = none)
    (h2 : alloc_file_slot fs.files = some idx)
    (hname : (stripSlash path).length < NAME_MAX_LEN) :
    find_file_by_name
      (fs.files.set idx
        { used := true, name := (stripSlash path).take (NAME_MAX_LEN - 1),
          start := 0, size := 0, perms := mode, mtime := now }) path =
      some idx := by
  have hidx : idx < fs.files.length := firstIdx_lt_length _ _ idx h2
  have htake : (stripSlash path).take (NAME_MAX_LEN - 1) = stripSlash path :=
    List.take_of_length_le (by omega)
  unfold find_file_by_name
  apply firstIdx_eq_some_of _ _ idx zeroFileEntry
  · rw [List.length_set]; exact hidx
  · rw [getD_set_self fs.files idx _ zeroFileEntry hidx]
    simp only [htake]
    simp [strncmpEq_refl]
  · intro j hj
    rw [getD_set_other fs.files idx j _ zeroFileEntry (by omega)]
    have hjlen : j < fs.files.length := Nat.lt_trans hj hidx
    have hmem := getD_mem fs.files j zeroFileEntry hjlen
    exact (firstIdx_eq_none_iff _ _).mp h1 _ hmem

/-! ## Claim C3: idempotent create (corrected) -/

/-- C3 as stated (for every name) is false: creating the 32-byte name
`"aaaaaaaaaaaaaaaaaaaaaaaaaaaaaaaa"` twice from a freshly formatted
state returns slot 0 the first time and slot 1 the second time, and
`file_count` grows from 1 to 2 — the stored name is truncated to 31
bytes, so the second lookup misses. -/
theorem C3_counterexample :
    (my_create fs_format longPath 420 1).1 = .ok 0 ∧
    (my_create (my_create fs_format longPath 420 1).2 longPath 420 2).1 =
      .ok 1 ∧
    (my_create fs_format longPath 420 1).2.super.file_count = 1 ∧
    (my_create (my_create fs_format longPath 420 1).2 longPath 420
      2).2.super.file_count = 2 := by
  refine ⟨by decide, by decide, by decide, by decide⟩

/-- C3 (amended): for every path whose bare name is shorter than
`NAME_MAX_LEN` bytes, if a create succeeds with handle `idx`, then an
immediately repeated create of the same name returns the same slot
`idx` and leaves the whole state (file table, superblock, data)
unchanged. -/
theorem C3_create_idempotent (fs : FS) (path : List Nat)
    (mode now mode2 now2 idx : Nat)
    (hname : (stripSlash path).length < NAME_MAX_LEN)
    (h1 : (my_create fs path mode now).1 = .ok idx) :
    my_create (my_create fs path mode now).2 path mode2 now2 =
      (.ok idx, (my_create fs path mode now).2) := by
  cases hfind : find_file_by_name fs.files path with
  | some i =>
    rw [my_create_eval_found fs path mode now i hfind] at h1 ⊢
    have : idx = i := by
      simpa using h1.symm
    subst this
    exact my_create_eval_found fs path mode2 now2 idx hfind
  | none =>
    cases halloc : alloc_file_slot fs.files with
    | none =>
      rw [my_create_eval_full fs path mode now hfind halloc] at h1
      simp at h1
    | some j =>
      rw [my_create_eval_new fs path mode now j hfind halloc] at h1 ⊢
      have : idx = j := by
        simpa using h1.symm
      subst this
      apply my_create_eval_found
      exact find_after_create_short fs path mode now idx hfind halloc hname

/-- Witness for the amended C3 at a concrete input: creating `"/a"`
twice on a freshly formatted filesystem yields slot 0 both times with
no state change on the second call. -/
theorem C3_create_idempotent_witness :
    ((stripSlash [47, 97]).length < NAME_MAX_LEN ∧
      (my_create fs_format [47, 97] 420 1).1 = .ok 0) ∧
    my_create (my_create fs_format [47, 97] 420 1).2 [47, 97] 420 2 =
      (.ok 0, (my_create fs_format [47, 97] 420 1).2) := by
  refine ⟨by decide, ?_⟩
  exact C3_create_idempotent fs_format [47, 97] 420 1 420 2 0 (by decide)
    (by decide)

/-! ## Claim C9: names of NAME_MAX_LEN bytes or longer -/

theorem find_none_of_long_query (files : List FileEntry) (path : List Nat)
    (hshort : ∀ fe ∈ files, fe.name.length < NAME_MAX_LEN)
    (hlong : NAME_MAX_LEN ≤ (stripSlash path).length) :
    find_file_by_name files path = none := by
  unfold find_file_by_name
  rw [firstIdx_eq_none_iff]
  intro fe hfe
  have h1 : fe.name.length < NAME_MAX_LEN := hshort fe hfe
  have h2 := strncmpEq_false_of_shorter fe.name (stripSlash path)
    NAME_MAX_LEN h1 (Nat.lt_of_lt_of_le h1 hlong)
  simp [h2]

/-- C9: for every path whose bare name is `NAME_MAX_LEN` (32) bytes or
longer (in a state whose stored names are all shorter than
`NAME_MAX_LEN`, as every reachable state's are), a successful create
stores only the first 31 bytes of the name; a subsequent lookup of the
original path misses (the full query mismatches the truncated stored
name), so the name resolves to not-found; and a repeated create of the
same long name does not return the same slot — when a free slot
remains, it succeeds on a second, different slot. -/
theorem C9_long_name_truncation_breaks_lookup (fs : FS) (path : List Nat)
    (mode now mode2 now2 idx : Nat)
    (hshort : ∀ fe ∈ fs.files, fe.name.length < NAME_MAX_LEN)
    (hlong : NAME_MAX_LEN ≤ (stripSlash path).length)
    (h1 : (my_create fs path mode now).1 = .ok idx) :
    ((my_create fs path mode now).2.files.getD idx zeroFileEntry).name =
      (stripSlash path).take (NAME_MAX_LEN - 1) ∧
    find_file_by_name (my_create fs path mode now).2.files path = none ∧
    (∀ idx2,
      (my_create (my_create fs path mode now).2 path mode2 now2).1 =
        .ok idx2 → idx2 ≠ idx) ∧
    ((∃ fe ∈ (my_create fs path mode now).2.files, fe.used = false) →
      ∃ idx2, idx2 ≠ idx ∧
        (my_create (my_create fs path mode now).2 path mode2 now2).1 =
          .ok idx2) := by
  have hfind : find_file_by_name fs.files path = none :=
    find_none_of_long_query fs.files path hshort hlong
  cases halloc : alloc_file_slot fs.files with
  | none =>
    rw [my_create_eval_full fs path mode now hfind halloc] at h1
    simp at h1
  | some j =>
    rw [my_create_eval_new fs path mode now j hfind halloc] at h1 ⊢
    have hj : idx = j := by simpa using h1.symm
    subst hj
    have hidx : idx < fs.files.length := firstIdx_lt_length _ _ idx halloc
    simp only
    have hshort' : ∀ fe ∈ fs.files.set idx
        { used := true, name := (stripSlash path).take (NAME_MAX_LEN - 1),
          start := 0, size := 0, perms := mode, mtime := now },
        fe.name.length < NAME_MAX_LEN := by
      intro fe hfe
      rcases List.mem_or_eq_of_mem_set hfe with hmem | heq
      · exact hshort fe hmem
      · subst heq
        simp only [List.length_take]
        have : NAME_MAX_LEN - 1 < NAME_MAX_LEN := by decide
        exact Nat.lt_of_le_of_lt (Nat.min_le_left _ _) this
    have hfind' : find_file_by_name
        (fs.files.set idx
          { used := true, name := (stripSlash path).take (NAME_MAX_LEN - 1),
            start := 0, size := 0, perms := mode, mtime := now }) path =
        none := find_none_of_long_query _ path hshort' hlong
    refine ⟨?_, hfind', ?_, ?_⟩
    · rw [getD_set_self fs.files idx _ zeroFileEntry hidx]
    · intro idx2 h2
      cases halloc2 : alloc_file_slot (fs.files.set idx
          { used := true, name := (stripSlash path).take (NAME_MAX_LEN - 1),
            start := 0, size := 0, perms := mode, mtime := now }) with
      | none =>
        rw [my_create_eval_full _ path mode2 now2 hfind' halloc2] at h2
        simp at h2
      | some k =>
        rw [my_create_eval_new _ path mode2 now2 k hfind' halloc2] at h2
        have hk : idx2 = k := by simpa using h2.symm
        subst hk
        intro hcontra
        subst hcontra
        have := firstIdx_prop _ _ idx2 zeroFileEntry halloc2
        rw [getD_set_self fs.files idx2 _ zeroFileEntry hidx] at this
        simp at this
    · intro ⟨fe, hfe, hunused⟩
      cases halloc2 : alloc_file_slot (fs.files.set idx
          { used := true, name := (stripSlash path).take (NAME_MAX_LEN - 1),
            start := 0, size := 0, perms := mode, mtime := now }) with
      | none =>
        have := (firstIdx_eq_none_iff _ _).mp halloc2 fe hfe
        rw [hunused] at this
        simp at this
      | some k =>
        refine ⟨k, ?_, ?_⟩
        · intro hcontra
          subst hcontra
          have := firstIdx_prop _ _ k zeroFileEntry halloc2
          rw [getD_set_self fs.files k _ zeroFileEntry hidx] at this
          simp at this
        · rw [my_create_eval_new _ path mode2 now2 k hfind' halloc2]

/-- Witness for C9 at a concrete input: creating the 32-`'a'` name on a
freshly formatted filesystem succeeds in slot 0, a lookup of the same
path then misses, and the repeated create lands in slot 1. -/
theorem C9_long_name_truncation_breaks_lookup_witness :
    ((∀ fe ∈ fs_format.files, fe.name.length < NAME_MAX_LEN) ∧
      NAME_MAX_LEN ≤ (stripSlash longPath).length ∧
      (my_create fs_format longPath 420 1).1 = .ok 0) ∧
    find_file_by_name (my_create fs_format longPath 420 1).2.files
      longPath = none := by
  refine ⟨⟨by decide, by decide, by decide⟩, ?_⟩
  exact (C9_long_name_truncation_breaks_lookup fs_format longPath 420 1 420 2
    0 (by decide) (by decide) (by decide)).2.1

/-! ## Claim C6: table exhaustion and slot reuse -/

theorem my_open_eval_enospc (fs : FS) (path : List Nat) (truncFlag : Bool)
    (now : Nat) (h1 : find_file_by_name fs.files path = none)
    (h2 : alloc_file_slot fs.files = none) :
    my_open fs path true truncFlag now = (.error .ENOSPC, fs) := by
  unfold my_open
  rw [h1]
  simp [h2]

theorem alloc_none_of_all_used (fs : FS)
    (hall : ∀ fe ∈ fs.files, fe.used = true) :
    alloc_file_slot fs.files = none := by
  unfold alloc_file_slot
  rw [firstIdx_eq_none_iff]
  intro fe hfe
  rw [hall fe hfe]
  rfl

/-- C6: when every file-table slot is used, a create (or an
open-with-create) of a not-yet-present name fails with no-space and
changes no state; and after unlinking any one existing file, a create
of a name that is still absent succeeds and claims exactly the freed
slot. -/
theorem C6_table_exhaustion_and_reuse (fs : FS)
    (hall : ∀ fe ∈ fs.files, fe.used = true)
    (pNew : List Nat) (hfresh : find_file_by_name fs.files pNew = none)
    (mode now : Nat) (tflag : Bool)
    (pOld : List Nat) (k : Nat)
    (hold : find_file_by_name fs.files pOld = some k)
    (pNew2 : List Nat) (mode2 now2 : Nat)
    (hfresh2 : find_file_by_name (my_unlink fs pOld).2.files pNew2 = none) :
    my_create fs pNew mode now = (.error .ENOSPC, fs) ∧
    my_open fs pNew true tflag now = (.error .ENOSPC, fs) ∧
    (my_create (my_unlink fs pOld).2 pNew2 mode2 now2).1 = .ok k := by
  have halloc : alloc_file_slot fs.files = none := alloc_none_of_all_used fs hall
  have hklen : k < fs.files.length := firstIdx_lt_length _ _ k hold
  refine ⟨my_create_eval_full fs pNew mode now hfresh halloc,
    my_open_eval_enospc fs pNew tflag now hfresh halloc, ?_⟩
  rw [my_unlink_eval_some fs pOld k hold] at hfresh2 ⊢
  have halloc' : alloc_file_slot (fs.files.set k zeroFileEntry) = some k := by
    unfold alloc_file_slot
    apply firstIdx_eq_some_of _ _ k zeroFileEntry
    · rw [List.length_set]; exact hklen
    · rw [getD_set_self fs.files k zeroFileEntry zeroFileEntry hklen]
      rfl
    · intro j hj
      rw [getD_set_other fs.files k j zeroFileEntry zeroFileEntry (by omega)]
      have hjlen : j < fs.files.length := Nat.lt_trans hj hklen
      rw [hall _ (getD_mem fs.files j zeroFileEntry hjlen)]
      rfl
  rw [my_create_eval_new _ pNew2 mode2 now2 k hfresh2 halloc']

/-- Witness for C6 at a concrete input: with all 64 slots of `fullFS`
used, creating the fresh name `"/d"` (byte 100) fails with no-space;
after unlinking the file named `[6]` (slot 5), creating `"/d"` succeeds
in exactly slot 5. -/
theorem C6_table_exhaustion_and_reuse_witness :
    ((∀ fe ∈ fullFS.files, fe.used = true) ∧
      find_file_by_name fullFS.files [47, 100] = none ∧
      find_file_by_name fullFS.files [47, 6] = some 5 ∧
      find_file_by_name (my_unlink fullFS [47, 6]).2.files [47, 100] =
        none) ∧
    (my_create fullFS [47, 100] 420 1).1 = .error .ENOSPC ∧
    (my_create (my_unlink fullFS [47, 6]).2 [47, 100] 420 2).1 = .ok 5 := by
  have h := C6_table_exhaustion_and_reuse fullFS (by decide) [47, 100]
    (by decide) 420 1 false [47, 6] 5 (by decide) [47, 100] 420 2 (by decide)
  refine ⟨⟨by decide, by decide, by decide, by decide⟩, ?_, h.2.2⟩
  rw [h.1]

/-! ## Helper lemmas: invariant preservation building blocks -/

theorem namesUnique_set_unused (files : List FileEntry) (k : Nat)
    (a : FileEntry) (hk : k < files.length) (ha : a.used = false)
    (h : NamesUnique files) : NamesUnique (files.set k a) := by
  intro i hi j hj hne hui huj
  rw [List.length_set] at hi hj
  by_cases hik : i = k
  · subst hik
    rw [getD_set_self files i a zeroFileEntry hk] at hui
    rw [hui] at ha
    simp at ha
  · by_cases hjk : j = k
    · subst hjk
      rw [getD_set_self files j a zeroFileEntry hk] at huj
      rw [huj] at ha
      simp at ha
    · rw [getD_set_other files k i a zeroFileEntry (fun hc => hik hc.symm)] at hui ⊢
      rw [getD_set_other files k j a zeroFileEntry (fun hc => hjk hc.symm)] at huj ⊢
      exact h i hi j hj hne hui huj

theorem namesUnique_set_keep (files : List FileEntry) (k : Nat)
    (a : FileEntry) (hk : k < files.length)
    (hname : a.name = (files.getD k zeroFileEntry).name)
    (hused : a.used = (files.getD k zeroFileEntry).used)
    (h : NamesUnique files) : NamesUnique (files.set k a) := by
  intro i hi j hj hne hui huj
  rw [List.length_set] at hi hj
  by_cases hik : i = k
  · subst hik
    have hjk : j ≠ i := fun hc => hne hc.symm
    rw [getD_set_self files i a zeroFileEntry hk] at hui ⊢
    rw [getD_set_other files i j a zeroFileEntry (fun hc => hjk hc.symm)] at huj ⊢
    rw [hname]
    rw [hused] at hui
    exact h i hi j hj hne hui huj
  · by_cases hjk : j = k
    · subst hjk
      rw [getD_set_self files j a zeroFileEntry hk] at huj ⊢
      rw [getD_set_other files j i a zeroFileEntry (fun hc => hik hc.symm)] at hui ⊢
      rw [hname]
      rw [hused] at huj
      exact h i hi j hj hne hui huj
    · rw [getD_set_other files k i a zeroFileEntry (fun hc => hik hc.symm)] at hui ⊢
      rw [getD_set_other files k j a zeroFileEntry (fun hc => hjk hc.symm)] at huj ⊢
      exact h i hi j hj hne hui huj

theorem namesUnique_set_new (files : List FileEntry) (k : Nat)
    (a : FileEntry) (q : List Nat) (hk : k < files.length)
    (hfind : ∀ fe ∈ files, (fe.used && strncmpEq fe.name q NAME_MAX_LEN) = false)
    (hname : a.name = q)
    (h : NamesUnique files) : NamesUnique (files.set k a) := by
  intro i hi j hj hne hui huj
  rw [List.length_set] at hi hj
  by_cases hik : i = k
  · subst hik
    have hjk : j ≠ i := fun hc => hne hc.symm
    rw [getD_set_self files i a zeroFileEntry hk] at hui ⊢
    rw [getD_set_other files i j a zeroFileEntry (fun hc => hjk hc.symm)] at huj ⊢
    rw [hname]
    intro hcontra
    have hmem := getD_mem files j zeroFileEntry hj
    have := hfind _ hmem
    rw [huj, hcontra.symm] at this
    rw [strncmpEq_refl] at this
    simp at this
  · by_cases hjk : j = k
    · subst hjk
      rw [getD_set_self files j a zeroFileEntry hk] at huj ⊢
      rw [getD_set_other files j i a zeroFileEntry (fun hc => hik hc.symm)] at hui ⊢
      rw [hname]
      intro hcontra
      have hmem := getD_mem files i zeroFileEntry hi
      have := hfind _ hmem
      rw [hui, hcontra] at this
      rw [strncmpEq_refl] at this
      simp at this
    · rw [getD_set_other files k i a zeroFileEntry (fun hc => hik hc.symm)] at hui ⊢
      rw [getD_set_other files k j a zeroFileEntry (fun hc => hjk hc.symm)] at huj ⊢
      exact h i hi j hj hne hui huj

theorem sizeOk_set (files : List FileEntry) (k : Nat) (a : FileEntry)
    (hsize : a.used = true → a.size ≤ FILE_REGION_SIZE)
    (h : ∀ fe ∈ files, fe.used = true → fe.size ≤ FILE_REGION_SIZE) :
    ∀ fe ∈ files.set k a, fe.used = true → fe.size ≤ FILE_REGION_SIZE := by
  intro fe hfe hu
  rcases List.mem_or_eq_of_mem_set hfe with hmem | heq
  · exact h fe hmem hu
  · subst heq
    exact hsize hu

/-! ## Evaluation lemmas for the remaining handler branches -/

theorem my_write_eval_badf (fs : FS) (fh : Nat) (buf : List Nat)
    (offset now : Nat) (seekOk : Bool) (written : Nat)
    (hv : ¬ (fh < MAX_FILES ∧ (fs.files.getD fh zeroFileEntry).used = true)) :
    my_write fs fh buf offset now seekOk written = (.error .EBADF, fs) := by
  unfold my_write
  rw [if_neg hv]

theorem my_write_eval_seekfail (fs : FS) (fh : Nat) (buf : List Nat)
    (offset now : Nat) (written : Nat)
    (hv : fh < MAX_FILES ∧ (fs.files.getD fh zeroFileEntry).used = true)
    (hfit : ¬ FILE_REGION_SIZE < offset + buf.length) :
    my_write fs fh buf offset now false written = (.error .eio, fs) := by
  unfold my_write
  rw [if_pos hv, if_neg hfit]
  simp

theorem my_write_eval_short (fs : FS) (fh : Nat) (buf : List Nat)
    (offset now : Nat) (written : Nat)
    (hv : fh < MAX_FILES ∧ (fs.files.getD fh zeroFileEntry).used = true)
    (hfit : ¬ FILE_REGION_SIZE < offset + buf.length)
    (hw : ¬ min written buf.length = buf.length) :
    my_write fs fh buf offset now true written =
      (.error .eio,
       { fs with
         data := writeBytes fs.data
           (DATA_OFFSET + fh * FILE_REGION_SIZE + offset)
           (buf.take (min written buf.length)) }) := by
  unfold my_write
  rw [if_pos hv, if_neg hfit]
  simp only [eq_self_iff_true, if_true]
  rw [if_neg hw]

theorem my_write_eval_ok_general (fs : FS) (fh : Nat) (buf : List Nat)
    (offset now : Nat) (written : Nat)
    (hv : fh < MAX_FILES ∧ (fs.files.getD fh zeroFileEntry).used = true)
    (hfit : ¬ FILE_REGION_SIZE < offset + buf.length)
    (hw : min written buf.length = buf.length) :
    my_write fs fh buf offset now true written =
      (.ok buf.length,
       { super := { fs.super with
           last_alloc := fs_recompute_last_alloc
             (fs.files.set fh
               { fs.files.getD fh zeroFileEntry with
                 size := if (fs.files.getD fh zeroFileEntry).size <
                     offset + buf.length then offset + buf.length
                   else (fs.files.getD fh zeroFileEntry).size,
                 mtime := now }) },
         files := fs.files.set fh
           { fs.files.getD fh zeroFileEntry with
             size := if (fs.files.getD fh zeroFileEntry).size <
                 offset + buf.length then offset + buf.length
               else (fs.files.getD fh zeroFileEntry).size,
             mtime := now },
         data := writeBytes fs.data
           (DATA_OFFSET + fh * FILE_REGION_SIZE + offset) buf }) := by
  unfold my_write
  rw [if_pos hv, if_neg hfit]
  simp only [hw, List.take_length, eq_self_iff_true, if_true]

theorem my_truncate_eval_none (fs : FS) (path : List Nat) (size now : Nat)
    (h : find_file_by_name fs.files path = none) :
    my_truncate fs path size now = (.error .ENOENT, fs) := by
  unfold my_truncate
  rw [h]

theorem my_truncate_eval_enospc (fs : FS) (path : List Nat) (size now k : Nat)
    (h : find_file_by_name fs.files path = some k)
    (hsz : FILE_REGION_SIZE < size) :
    my_truncate fs path size now = (.error .ENOSPC, fs) := by
  unfold my_truncate
  rw [h]
  simp only [if_pos hsz]

theorem my_truncate_eval_ok (fs : FS) (path : List Nat) (size now k : Nat)
    (h : find_file_by_name fs.files path = some k)
    (hsz : ¬ FILE_REGION_SIZE < size) :
    my_truncate fs path size now =
      (.ok (),
       { super := { fs.super with
           last_alloc := fs_recompute_last_alloc
             (fs.files.set k
               { fs.files.getD k zeroFileEntry with
                 size := size, mtime := now }) },
         files := fs.files.set k
           { fs.files.getD k zeroFileEntry with size := size, mtime := now },
         data := fs.data }) := by
  unfold my_truncate
  rw [h]
  simp only [if_neg hsz]

theorem my_open_eval_noent (fs : FS) (path : List Nat) (truncFlag : Bool)
    (now : Nat) (h : find_file_by_name fs.files path = none) :
    my_open fs path false truncFlag now = (.error .ENOENT, fs) := by
  unfold my_open
  rw [h]
  simp

theorem my_open_eval_new (fs : FS) (path : List Nat) (truncFlag : Bool)
    (now idx : Nat) (h1 : find_file_by_name fs.files path = none)
    (h2 : alloc_file_slot fs.files = some idx) :
    my_open fs path true truncFlag now =
      (.ok idx,
       { super := { fs.super with
           file_count := (fs.super.file_count + 1) % U32,
           last_alloc := fs_recompute_last_alloc
             (fs.files.set idx
               { used := true,
                 name := (stripSlash path).take (NAME_MAX_LEN - 1),
                 start := 0, size := 0, perms := 0o644, mtime := now }) },
         files := fs.files.set idx
           { used := true,
             name := (stripSlash path).take (NAME_MAX_LEN - 1),
             start := 0, size := 0, perms := 0o644, mtime := now },
         data := fs.data }) := by
  unfold my_open
  rw [h1]
  simp [h2]

theorem my_open_eval_found (fs : FS) (path : List Nat) (creatFlag : Bool)
    (now idx : Nat) (h : find_file_by_name fs.files path = some idx) :
    my_open fs path creatFlag false now = (.ok idx, fs) := by
  unfold my_open
  rw [h]
  simp

theorem my_open_eval_trunc (fs : FS) (path : List Nat) (creatFlag : Bool)
    (now idx : Nat) (h : find_file_by_name fs.files path = some idx) :
    my_open fs path creatFlag true now =
      (.ok idx,
       { super := { fs.super with
           last_alloc := fs_recompute_last_alloc
             (fs.files.set idx
               { fs.files.getD idx zeroFileEntry with
                 size := 0, mtime := now }) },
         files := fs.files.set idx
           { fs.files.getD idx zeroFileEntry with size := 0, mtime := now },
         data := fs.data }) := by
  unfold my_open
  rw [h]
  simp

/-! ## Invariant preservation, operation by operation -/

theorem getD_replicate (n i : Nat) (a : α) :
    (List.replicate n a).getD i a = a := by
  induction n generalizing i with
  | zero => simp
  | succ n ih =>
    cases i with
    | zero => simp [List.replicate]
    | succ i => simp [List.replicate, ih]

theorem fsInv_format : FsInv fs_format := by
  refine ⟨rfl, by decide, Nat.le_refl _, ?_, ?_⟩
  · intro fe hfe hu
    rw [List.eq_of_mem_replicate hfe] at hu
    simp [zeroFileEntry] at hu
  · intro i hi j hj hne hui huj
    have hz : fs_format.files.getD i zeroFileEntry = zeroFileEntry :=
      getD_replicate MAX_FILES i zeroFileEntry
    rw [hz] at hui
    simp [zeroFileEntry] at hui

theorem fsInv_my_unlink (fs : FS) (h : FsInv fs) (path : List Nat) :
    FsInv (my_unlink fs path).2 := by
  obtain ⟨hlen64, hcount, hla, hsz, hnu⟩ := h
  cases hfind : find_file_by_name fs.files path with
  | none =>
    rw [my_unlink_eval_none fs path hfind]
    exact ⟨hlen64, hcount, hla, hsz, hnu⟩
  | some k =>
    have hklen : k < fs.files.length := firstIdx_lt_length _ _ k hfind
    have hkused : (fs.files.getD k zeroFileEntry).used = true := by
      have := firstIdx_prop _ _ k zeroFileEntry hfind
      exact (Bool.and_eq_true_iff.mp this).1
    rw [my_unlink_eval_some fs path k hfind]
    have hshrink := countP_set_shrink (fun fe => fe.used) fs.files k
      zeroFileEntry zeroFileEntry hklen hkused rfl
    have hcle : fs.files.countP (fun fe => fe.used) ≤ fs.files.length :=
      List.countP_le_length _
    refine ⟨?_, ?_, ?_, ?_, ?_⟩
    · show (fs.files.set k zeroFileEntry).length = MAX_FILES
      rw [List.length_set]; exact hlen64
    · show (fs.super.file_count + (U32 - 1)) % U32 =
        (fs.files.set k zeroFileEntry).countP (fun fe => fe.used)
      rw [hlen64] at hcle
      simp only [U32, MAX_FILES] at *
      omega
    · exact le_lastAllocAux _ 0 DATA_OFFSET
    · apply sizeOk_set
      · intro hu
        simp [zeroFileEntry] at hu
      · exact hsz
    · exact namesUnique_set_unused fs.files k zeroFileEntry hklen rfl hnu

theorem fsInv_my_truncate (fs : FS) (h : FsInv fs) (path : List Nat)
    (size now : Nat) : FsInv (my_truncate fs path size now).2 := by
  obtain ⟨hlen64, hcount, hla, hsz, hnu⟩ := h
  cases hfind : find_file_by_name fs.files path with
  | none =>
    rw [my_truncate_eval_none fs path size now hfind]
    exact ⟨hlen64, hcount, hla, hsz, hnu⟩
  | some k =>
    by_cases hbig : FILE_REGION_SIZE < size
    · rw [my_truncate_eval_enospc fs path size now k hfind hbig]
      exact ⟨hlen64, hcount, hla, hsz, hnu⟩
    · have hklen : k < fs.files.length := firstIdx_lt_length _ _ k hfind
      rw [my_truncate_eval_ok fs path size now k hfind hbig]
      refine ⟨?_, ?_, ?_, ?_, ?_⟩
      · show (fs.files.set k _).length = MAX_FILES
        rw [List.length_set]; exact hlen64
      · show fs.super.file_count = (fs.files.set k _).countP (fun fe => fe.used)
        have hcp := countP_set_same (fun fe : FileEntry => fe.used) fs.files k
          { fs.files.getD k zeroFileEntry with size := size, mtime := now }
          zeroFileEntry hklen
        rw [hcp rfl]
        exact hcount
      · exact le_lastAllocAux _ 0 DATA_OFFSET
      · apply sizeOk_set
        · intro _
          exact Nat.le_of_not_lt hbig
        · exact hsz
      · exact namesUnique_set_keep fs.files k _ hklen rfl rfl hnu

theorem fsInv_my_write (fs : FS) (h : FsInv fs) (fh : Nat) (buf : List Nat)
    (offset now : Nat) (seekOk : Bool) (written : Nat) :
    FsInv (my_write fs fh buf offset now seekOk written).2 := by
  obtain ⟨hlen64, hcount, hla, hsz, hnu⟩ := h
  by_cases hv : fh < MAX_FILES ∧ (fs.files.getD fh zeroFileEntry).used = true
  · by_cases hov : FILE_REGION_SIZE < offset + buf.length
    · rw [my_write_eval_enospc fs fh buf offset now seekOk written hv hov]
      exact ⟨hlen64, hcount, hla, hsz, hnu⟩
    · cases seekOk with
      | false =>
        rw [my_write_eval_seekfail fs fh buf offset now written hv hov]
        exact ⟨hlen64, hcount, hla, hsz, hnu⟩
      | true =>
        by_cases hw : min written buf.length = buf.length
        · have hlen : fh < fs.files.length := lt_length_of_getD_used _ _ hv.2
          rw [my_write_eval_ok_general fs fh buf offset now written hv hov hw]
          refine ⟨?_, ?_, ?_, ?_, ?_⟩
          · show (fs.files.set fh _).length = MAX_FILES
            rw [List.length_set]; exact hlen64
          · show fs.super.file_count =
              (fs.files.set fh _).countP (fun fe => fe.used)
            have hcp := countP_set_same (fun fe : FileEntry => fe.used)
              fs.files fh
              { fs.files.getD fh zeroFileEntry with
                size := if (fs.files.getD fh zeroFileEntry).size <
                    offset + buf.length then offset + buf.length
                  else (fs.files.getD fh zeroFileEntry).size,
                mtime := now }
              zeroFileEntry hlen
            rw [hcp rfl]
            exact hcount
          · exact le_lastAllocAux _ 0 DATA_OFFSET
          · apply sizeOk_set
            · intro _
              have hold := hsz _ (getD_mem fs.files fh zeroFileEntry hlen) hv.2
              show (if (fs.files.getD fh zeroFileEntry).size <
                  offset + buf.length then offset + buf.length
                else (fs.files.getD fh zeroFileEntry).size) ≤ FILE_REGION_SIZE
              by_cases hc : (fs.files.getD fh zeroFileEntry).size <
                  offset + buf.length
              · rw [if_pos hc]; omega
              · rw [if_neg hc]; exact hold
            · exact hsz
          · exact namesUnique_set_keep fs.files fh _ hlen rfl rfl hnu
        · rw [my_write_eval_short fs fh buf offset now written hv hov hw]
          exact ⟨hlen64, hcount, hla, hsz, hnu⟩
  · rw [my_write_eval_badf fs fh buf offset now seekOk written hv]
    exact ⟨hlen64, hcount, hla, hsz, hnu⟩

theorem fsInv_my_create (fs : FS) (h : FsInv fs) (path : List Nat)
    (mode now : Nat) (hname : (stripSlash path).length < NAME_MAX_LEN) :
    FsInv (my_create fs path mode now).2 := by
  obtain ⟨hlen64, hcount, hla, hsz, hnu⟩ := h
  cases hfind : find_file_by_name fs.files path with
  | some i =>
    rw [my_create_eval_found fs path mode now i hfind]
    exact ⟨hlen64, hcount, hla, hsz, hnu⟩
  | none =>
    cases halloc : alloc_file_slot fs.files with
    | none =>
      rw [my_create_eval_full fs path mode now hfind halloc]
      exact ⟨hlen64, hcount, hla, hsz, hnu⟩
    | some idx =>
      have hidx : idx < fs.files.length := firstIdx_lt_length _ _ idx halloc
      have hunused : (fs.files.getD idx zeroFileEntry).used = false := by
        have := firstIdx_prop _ _ idx zeroFileEntry halloc
        simpa using this
      have htake : (stripSlash path).take (NAME_MAX_LEN - 1) =
          stripSlash path := List.take_of_length_le (by omega)
      rw [my_create_eval_new fs path mode now idx hfind halloc]
      refine ⟨?_, ?_, ?_, ?_, ?_⟩
      · show (fs.files.set idx _).length = MAX_FILES
        rw [List.length_set]; exact hlen64
      · show (fs.super.file_count + 1) % U32 =
          (fs.files.set idx _).countP (fun fe => fe.used)
        have hgrow := countP_set_grow (fun fe : FileEntry => fe.used)
          fs.files idx
          { used := true, name := (stripSlash path).take (NAME_MAX_LEN - 1),
            start := 0, size := 0, perms := mode, mtime := now }
          zeroFileEntry hidx hunused rfl
        rw [hgrow]
        have hcle : fs.files.countP (fun fe : FileEntry => fe.used) ≤
            fs.files.length := List.countP_le_length _
        rw [hlen64] at hcle
        rw [← hcount]
        have hfcle : fs.super.file_count ≤ MAX_FILES := by
          rw [hcount]; exact hcle
        simp only [U32, MAX_FILES] at hfcle ⊢
        omega
      · exact le_lastAllocAux _ 0 DATA_OFFSET
      · apply sizeOk_set
        · intro _
          exact Nat.zero_le _
        · exact hsz
      · apply namesUnique_set_new fs.files idx _ (stripSlash path) hidx
          ((firstIdx_eq_none_iff _ _).mp hfind) ?_ hnu
        show (stripSlash path).take (NAME_MAX_LEN - 1) = stripSlash path
        exact htake

theorem fsInv_my_open (fs : FS) (h : FsInv fs) (path : List Nat)
    (creatFlag truncFlag : Bool) (now : Nat)
    (hname : (stripSlash path).length < NAME_MAX_LEN) :
    FsInv (my_open fs path creatFlag truncFlag now).2 := by
  obtain ⟨hlen64, hcount, hla, hsz, hnu⟩ := h
  cases hfind : find_file_by_name fs.files path with
  | some i =>
    cases truncFlag with
    | false =>
      rw [my_open_eval_found fs path creatFlag now i hfind]
      exact ⟨hlen64, hcount, hla, hsz, hnu⟩
    | true =>
      have hilen : i < fs.files.length := firstIdx_lt_length _ _ i hfind
      rw [my_open_eval_trunc fs path creatFlag now i hfind]
      refine ⟨?_, ?_, ?_, ?_, ?_⟩
      · show (fs.files.set i _).length = MAX_FILES
        rw [List.length_set]; exact hlen64
      · show fs.super.file_count = (fs.files.set i _).countP (fun fe => fe.used)
        have hcp := countP_set_same (fun fe : FileEntry => fe.used) fs.files i
          { fs.files.getD i zeroFileEntry with size := 0, mtime := now }
          zeroFileEntry hilen
        rw [hcp rfl]
        exact hcount
      · exact le_lastAllocAux _ 0 DATA_OFFSET
      · apply sizeOk_set
        · intro _
          exact Nat.zero_le _
        · exact hsz
      · exact namesUnique_set_keep fs.files i _ hilen rfl rfl hnu
  | none =>
    cases creatFlag with
    | false =>
      rw [my_open_eval_noent fs path truncFlag now hfind]
      exact ⟨hlen64, hcount, hla, hsz, hnu⟩
    | true =>
      cases halloc : alloc_file_slot fs.files with
      | none =>
        rw [my_open_eval_enospc fs path truncFlag now hfind halloc]
        exact ⟨hlen64, hcount, hla, hsz, hnu⟩
      | some idx =>
        have hidx : idx < fs.files.length := firstIdx_lt_length _ _ idx halloc
        have hunused : (fs.files.getD idx zeroFileEntry).used = false := by
          have := firstIdx_prop _ _ idx zeroFileEntry halloc
          simpa using this
        have htake : (stripSlash path).take (NAME_MAX_LEN - 1) =
            stripSlash path := List.take_of_length_le (by omega)
        rw [my_open_eval_new fs path truncFlag now idx hfind halloc]
        refine ⟨?_, ?_, ?_, ?_, ?_⟩
        · show (fs.files.set idx _).length = MAX_FILES
          rw [List.length_set]; exact hlen64
        · show (fs.super.file_count + 1) % U32 =
            (fs.files.set idx _).countP (fun fe => fe.used)
          have hgrow := countP_set_grow (fun fe : FileEntry => fe.used)
            fs.files idx
            { used := true, name := (stripSlash path).take (NAME_MAX_LEN - 1),
              start := 0, size := 0, perms := 0o644, mtime := now }
            zeroFileEntry hidx hunused rfl
          rw [hgrow]
          have hcle : fs.files.countP (fun fe : FileEntry => fe.used) ≤
              fs.files.length := List.countP_le_length _
          rw [hlen64] at hcle
          rw [← hcount]
          have hfcle : fs.super.file_count ≤ MAX_FILES := by
            rw [hcount]; exact hcle
          simp only [U32, MAX_FILES] at hfcle ⊢
          omega
        · exact le_lastAllocAux _ 0 DATA_OFFSET
        · apply sizeOk_set
          · intro _
            exact Nat.zero_le _
          · exact hsz
        · apply namesUnique_set_new fs.files idx _ (stripSlash path) hidx
            ((firstIdx_eq_none_iff _ _).mp hfind) ?_ hnu
          show (stripSlash path).take (NAME_MAX_LEN - 1) = stripSlash path
          exact htake

/-! ## Claim C4: the state invariant (corrected) -/

set_option maxRecDepth 4000 in
/-- C4 as stated is false: after creating the 32-byte name
`"aaaa…a"` on a freshly formatted filesystem the invariant `FsInv`
holds, but a second create of the same name — allowed by the claim,
which quantifies over every create — produces two used entries with
the identical truncated 31-byte stored name, violating the
names-unique clause of the invariant. -/
theorem C4_counterexample :
    FsInv (my_create fs_format longPath 420 1).2 ∧
    ¬ FsInv (my_create (my_create fs_format longPath 420 1).2
        longPath 420 2).2 := by
  constructor
  · decide
  · decide

/-- C4 (amended): every operation preserves the state invariant —
`file_count` counts the used entries, `last_alloc ≥ DATA_OFFSET`, used
sizes fit the slot capacity, names unique among used entries — with
the proviso forced by the counterexample: for create and
open-with-create the operated path's bare name must be shorter than
`NAME_MAX_LEN` bytes (longer names are truncated on store and can
duplicate an existing stored name).  Write, truncate, unlink and
format preserve the invariant unconditionally. -/
theorem C4_invariant_preservation (fs : FS) (h : FsInv fs)
    (path : List Nat) (mode now tsize : Nat) (fh : Nat) (buf : List Nat)
    (offset : Nat) (creatFlag truncFlag seekOk : Bool) (written : Nat) :
    FsInv fs_format ∧
    FsInv (my_write fs fh buf offset now seekOk written).2 ∧
    FsInv (my_truncate fs path tsize now).2 ∧
    FsInv (my_unlink fs path).2 ∧
    ((stripSlash path).length < NAME_MAX_LEN →
      FsInv (my_create fs path mode now).2 ∧
      FsInv (my_open fs path creatFlag truncFlag now).2) := by
  refine ⟨fsInv_format, fsInv_my_write fs h fh buf offset now seekOk written,
    fsInv_my_truncate fs h path tsize now, fsInv_my_unlink fs h path, ?_⟩
  intro hname
  exact ⟨fsInv_my_create fs h path mode now hname,
    fsInv_my_open fs h path creatFlag truncFlag now hname⟩

set_option maxRecDepth 4000 in
/-- Witness for the amended C4 at a concrete input: `exFS` satisfies the
invariant, and so do the states after writing 3 bytes at offset 0 of
slot 0, after unlinking `"/a"`, and after creating the short name
`"/b"`. -/
theorem C4_invariant_preservation_witness :
    (FsInv exFS ∧ (stripSlash [47, 98]).length < NAME_MAX_LEN) ∧
    FsInv (my_write exFS 0 [1, 2, 3] 0 9 true 3).2 ∧
    FsInv (my_unlink exFS [47, 98]).2 ∧
    FsInv (my_create exFS [47, 98] 420 9).2 := by
  have hinv : FsInv exFS := by decide
  have h := C4_invariant_preservation exFS hinv [47, 98] 420 9 5 0 [1, 2, 3]
    0 false false true 3
  exact ⟨⟨hinv, by decide⟩, h.2.1, h.2.2.2.1, (h.2.2.2.2 (by decide)).1⟩

/-! ## Claim C10: stored perms are never read back -/

theorem eraseEq_forall₂ (s t : FS) (h : erasePerms s = erasePerms t) :
    List.Forall₂ (fun a b => eraseEntryPerms a = eraseEntryPerms b)
      s.files t.files := by
  apply forall₂_of_map_eq
  exact congrArg FS.files h

theorem eraseEq_super (s t : FS) (h : erasePerms s = erasePerms t) :
    s.super = t.super := by
  have hc := congrArg FS.super h
  exact hc

theorem eraseEq_data (s t : FS) (h : erasePerms s = erasePerms t) :
    s.data = t.data := by
  have hc := congrArg FS.data h
  exact hc

theorem eraseEq_map (s t : FS) (h : erasePerms s = erasePerms t) :
    s.files.map eraseEntryPerms = t.files.map eraseEntryPerms :=
  congrArg FS.files h

theorem eraseEntry_fields (a b : FileEntry)
    (h : eraseEntryPerms a = eraseEntryPerms b) :
    a.used = b.used ∧ a.name = b.name ∧ a.start = b.start ∧
    a.size = b.size ∧ a.mtime = b.mtime := by
  have h1 := congrArg FileEntry.used h
  have h2 := congrArg FileEntry.name h
  have h3 := congrArg FileEntry.start h
  have h4 := congrArg FileEntry.size h
  have h5 := congrArg FileEntry.mtime h
  exact ⟨h1, h2, h3, h4, h5⟩

theorem eraseEntry_ext (a b : FileEntry) (hu : a.used = b.used)
    (hn : a.name = b.name) (hs : a.start = b.start) (hz : a.size = b.size)
    (hm : a.mtime = b.mtime) : eraseEntryPerms a = eraseEntryPerms b := by
  cases a; cases b
  simp only at hu hn hs hz hm
  unfold eraseEntryPerms
  simp [hu, hn, hs, hz, hm]

theorem getD_erase (s t : FS) (h : erasePerms s = erasePerms t) (j : Nat) :
    eraseEntryPerms (s.files.getD j zeroFileEntry) =
      eraseEntryPerms (t.files.getD j zeroFileEntry) :=
  forall₂_getD s.files t.files (eraseEq_forall₂ s t h)
    zeroFileEntry zeroFileEntry rfl j

theorem find_congr (s t : FS) (h : erasePerms s = erasePerms t)
    (path : List Nat) :
    find_file_by_name s.files path = find_file_by_name t.files path := by
  apply firstIdx_congr _ _ _ _ (eraseEq_forall₂ s t h)
  intro a b hab
  have hf := eraseEntry_fields a b hab
  rw [hf.1, hf.2.1]

theorem alloc_congr (s t : FS) (h : erasePerms s = erasePerms t) :
    alloc_file_slot s.files = alloc_file_slot t.files := by
  apply firstIdx_congr _ _ _ _ (eraseEq_forall₂ s t h)
  intro a b hab
  rw [(eraseEntry_fields a b hab).1]

theorem filterMap_congr_forall₂ {R : α → β → Prop} (f : α → Option γ)
    (g : β → Option γ) (l₁ : List α) (l₂ : List β)
    (h : List.Forall₂ R l₁ l₂) (hfg : ∀ a b, R a b → f a = g b) :
    l₁.filterMap f = l₂.filterMap g := by
  induction h with
  | nil => rfl
  | cons hab _ ih => simp only [List.filterMap_cons, hfg _ _ hab, ih]

theorem recompute_congr_set (s t : FS) (h : erasePerms s = erasePerms t)
    (k : Nat) (a b : FileEntry) (hu : a.used = b.used) (hz : a.size = b.size) :
    fs_recompute_last_alloc (s.files.set k a) =
      fs_recompute_last_alloc (t.files.set k b) := by
  apply lastAllocAux_congr
  apply forall₂_set
  · exact (eraseEq_forall₂ s t h).imp (fun a b hab =>
      ⟨(eraseEntry_fields _ _ hab).1, (eraseEntry_fields _ _ hab).2.2.2.1⟩)
  · exact ⟨hu, hz⟩

theorem my_getattr_congr (s t : FS) (h : erasePerms s = erasePerms t)
    (path : List Nat) : my_getattr s path = my_getattr t path := by
  unfold my_getattr
  by_cases hroot : path = [47]
  · rw [if_pos hroot, if_pos hroot]
  · rw [if_neg hroot, if_neg hroot, find_congr s t h path]
    cases hf : find_file_by_name t.files path with
    | none => rfl
    | some idx =>
      have hfe := eraseEntry_fields _ _ (getD_erase s t h idx)
      dsimp only
      rw [hfe.2.2.2.1, hfe.2.2.2.2]

theorem my_readdir_congr (s t : FS) (h : erasePerms s = erasePerms t)
    (path : List Nat) : my_readdir s path = my_readdir t path := by
  unfold my_readdir
  by_cases hroot : path = [47]
  · rw [if_pos hroot, if_pos hroot]
    have : s.files.filterMap
        (fun fe => if fe.used then some fe.name else none) =
      t.files.filterMap (fun fe => if fe.used then some fe.name else none) := by
      apply filterMap_congr_forall₂ _ _ _ _ (eraseEq_forall₂ s t h)
      intro a b hab
      have hf := eraseEntry_fields a b hab
      rw [hf.1, hf.2.1]
    rw [this]
  · rw [if_neg hroot, if_neg hroot]

theorem my_read_congr (s t : FS) (h : erasePerms s = erasePerms t)
    (fh size offset : Nat) (seekOk : Bool) (delivered : Nat) :
    my_read s fh size offset seekOk delivered =
      my_read t fh size offset seekOk delivered := by
  have hfe := eraseEntry_fields _ _ (getD_erase s t h fh)
  unfold my_read
  dsimp only
  rw [hfe.1, hfe.2.2.2.1]

theorem my_write_congr (s t : FS) (h : erasePerms s = erasePerms t)
    (fh : Nat) (buf : List Nat) (offset now : Nat) (seekOk : Bool)
    (written : Nat) :
    (my_write s fh buf offset now seekOk written).1 =
      (my_write t fh buf offset now seekOk written).1 ∧
    erasePerms (my_write s fh buf offset now seekOk written).2 =
      erasePerms (my_write t fh buf offset now seekOk written).2 := by
  have hfe := eraseEntry_fields _ _ (getD_erase s t h fh)
  have hsup := eraseEq_super s t h
  have hdata := eraseEq_data s t h
  have hmap := eraseEq_map s t h
  by_cases hv : fh < MAX_FILES ∧ (s.files.getD fh zeroFileEntry).used = true
  · have hv' : fh < MAX_FILES ∧ (t.files.getD fh zeroFileEntry).used = true := by
      rw [← hfe.1]; exact hv
    by_cases hov : FILE_REGION_SIZE < offset + buf.length
    · rw [my_write_eval_enospc s fh buf offset now seekOk written hv hov,
        my_write_eval_enospc t fh buf offset now seekOk written hv' hov]
      exact ⟨rfl, h⟩
    · have hsz : (if (s.files.getD fh zeroFileEntry).size <
          offset + buf.length then offset + buf.length
        else (s.files.getD fh zeroFileEntry).size) =
        (if (t.files.getD fh zeroFileEntry).size <
          offset + buf.length then offset + buf.length
        else (t.files.getD fh zeroFileEntry).size) := by
        rw [hfe.2.2.2.1]
      cases seekOk with
      | false =>
        rw [my_write_eval_seekfail s fh buf offset now written hv hov,
          my_write_eval_seekfail t fh buf offset now written hv' hov]
        exact ⟨rfl, h⟩
      | true =>
        by_cases hw : min written buf.length = buf.length
        · rw [my_write_eval_ok_general s fh buf offset now written hv hov hw,
            my_write_eval_ok_general t fh buf offset now written hv' hov hw]
          refine ⟨rfl, ?_⟩
          simp only [erasePerms, FS.mk.injEq]
          refine ⟨?_, ?_, ?_⟩
          · rw [hsup]
            congr 1
            exact recompute_congr_set s t h fh _ _ hfe.1 hsz
          · rw [List.map_set, List.map_set, hmap]
            congr 1
            exact eraseEntry_ext _ _ hfe.1 hfe.2.1 hfe.2.2.1 hsz rfl
          · rw [hdata]
        · rw [my_write_eval_short s fh buf offset now written hv hov hw,
            my_write_eval_short t fh buf offset now written hv' hov hw]
          refine ⟨rfl, ?_⟩
          simp only [erasePerms, FS.mk.injEq]
          exact ⟨hsup, hmap, by rw [hdata]⟩
  · have hv' : ¬ (fh < MAX_FILES ∧
        (t.files.getD fh zeroFileEntry).used = true) := by
      rw [← hfe.1]; exact hv
    rw [my_write_eval_badf s fh buf offset now seekOk written hv,
      my_write_eval_badf t fh buf offset now seekOk written hv']
    exact ⟨rfl, h⟩

theorem my_create_congr (s t : FS) (h : erasePerms s = erasePerms t)
    (path : List Nat) (mode now : Nat) :
    (my_create s path mode now).1 = (my_create t path mode now).1 ∧
    erasePerms (my_create s path mode now).2 =
      erasePerms (my_create t path mode now).2 := by
  have hsup := eraseEq_super s t h
  have hdata := eraseEq_data s t h
  have hmap := eraseEq_map s t h
  have hfind := find_congr s t h path
  cases hf : find_file_by_name t.files path with
  | some i =>
    rw [my_create_eval_found s path mode now i (hfind.trans hf),
      my_create_eval_found t path mode now i hf]
    exact ⟨rfl, h⟩
  | none =>
    have hfs : find_file_by_name s.files path = none := hfind.trans hf
    have halloc := alloc_congr s t h
    cases ha : alloc_file_slot t.files with
    | none =>
      rw [my_create_eval_full s path mode now hfs (halloc.trans ha),
        my_create_eval_full t path mode now hf ha]
      exact ⟨rfl, h⟩
    | some idx =>
      rw [my_create_eval_new s path mode now idx hfs (halloc.trans ha),
        my_create_eval_new t path mode now idx hf ha]
      refine ⟨rfl, ?_⟩
      simp only [erasePerms, FS.mk.injEq]
      refine ⟨?_, ?_, hdata⟩
      · rw [hsup]
        congr 1
        exact recompute_congr_set s t h idx _ _ rfl rfl
      · rw [List.map_set, List.map_set, hmap]

theorem my_unlink_congr (s t : FS) (h : erasePerms s = erasePerms t)
    (path : List Nat) :
    (my_unlink s path).1 = (my_unlink t path).1 ∧
    erasePerms (my_unlink s path).2 = erasePerms (my_unlink t path).2 := by
  have hsup := eraseEq_super s t h
  have hdata := eraseEq_data s t h
  have hmap := eraseEq_map s t h
  have hfind := find_congr s t h path
  cases hf : find_file_by_name t.files path with
  | none =>
    rw [my_unlink_eval_none s path (hfind.trans hf),
      my_unlink_eval_none t path hf]
    exact ⟨rfl, h⟩
  | some k =>
    rw [my_unlink_eval_some s path k (hfind.trans hf),
      my_unlink_eval_some t path k hf]
    refine ⟨rfl, ?_⟩
    simp only [erasePerms, FS.mk.injEq]
    refine ⟨?_, ?_, hdata⟩
    · rw [hsup]
      congr 1
      exact recompute_congr_set s t h k _ _ rfl rfl
    · rw [List.map_set, List.map_set, hmap]

theorem my_truncate_congr (s t : FS) (h : erasePerms s = erasePerms t)
    (path : List Nat) (tsize now : Nat) :
    (my_truncate s path tsize now).1 = (my_truncate t path tsize now).1 ∧
    erasePerms (my_truncate s path tsize now).2 =
      erasePerms (my_truncate t path tsize now).2 := by
  have hsup := eraseEq_super s t h
  have hdata := eraseEq_data s t h
  have hmap := eraseEq_map s t h
  have hfind := find_congr s t h path
  cases hf : find_file_by_name t.files path with
  | none =>
    rw [my_truncate_eval_none s path tsize now (hfind.trans hf),
      my_truncate_eval_none t path tsize now hf]
    exact ⟨rfl, h⟩
  | some k =>
    have hfeK := eraseEntry_fields _ _ (getD_erase s t h k)
    by_cases hbig : FILE_REGION_SIZE < tsize
    · rw [my_truncate_eval_enospc s path tsize now k (hfind.trans hf) hbig,
        my_truncate_eval_enospc t path tsize now k hf hbig]
      exact ⟨rfl, h⟩
    · rw [my_truncate_eval_ok s path tsize now k (hfind.trans hf) hbig,
        my_truncate_eval_ok t path tsize now k hf hbig]
      refine ⟨rfl, ?_⟩
      simp only [erasePerms, FS.mk.injEq]
      refine ⟨?_, ?_, hdata⟩
      · rw [hsup]
        congr 1
        exact recompute_congr_set s t h k _ _ hfeK.1 rfl
      · rw [List.map_set, List.map_set, hmap]
        congr 1
        exact eraseEntry_ext _ _ hfeK.1 hfeK.2.1 hfeK.2.2.1 rfl rfl

theorem my_open_congr (s t : FS) (h : erasePerms s = erasePerms t)
    (path : List Nat) (creatFlag truncFlag : Bool) (now : Nat) :
    (my_open s path creatFlag truncFlag now).1 =
      (my_open t path creatFlag truncFlag now).1 ∧
    erasePerms (my_open s path creatFlag truncFlag now).2 =
      erasePerms (my_open t path creatFlag truncFlag now).2 := by
  have hsup := eraseEq_super s t h
  have hdata := eraseEq_data s t h
  have hmap := eraseEq_map s t h
  have hfind := find_congr s t h path
  cases hf : find_file_by_name t.files path with
  | some i =>
    have hfeI := eraseEntry_fields _ _ (getD_erase s t h i)
    cases truncFlag with
    | false =>
      rw [my_open_eval_found s path creatFlag now i (hfind.trans hf),
        my_open_eval_found t path creatFlag now i hf]
      exact ⟨rfl, h⟩
    | true =>
      rw [my_open_eval_trunc s path creatFlag now i (hfind.trans hf),
        my_open_eval_trunc t path creatFlag now i hf]
      refine ⟨rfl, ?_⟩
      simp only [erasePerms, FS.mk.injEq]
      refine ⟨?_, ?_, hdata⟩
      · rw [hsup]
        congr 1
        exact recompute_congr_set s t h i _ _ hfeI.1 rfl
      · rw [List.map_set, List.map_set, hmap]
        congr 1
        exact eraseEntry_ext _ _ hfeI.1 hfeI.2.1 hfeI.2.2.1 rfl rfl
  | none =>
    have hfs : find_file_by_name s.files path = none := hfind.trans hf
    cases creatFlag with
    | false =>
      rw [my_open_eval_noent s path truncFlag now hfs,
        my_open_eval_noent t path truncFlag now hf]
      exact ⟨rfl, h⟩
    | true =>
      have halloc := alloc_congr s t h
      cases ha : alloc_file_slot t.files with
      | none =>
        rw [my_open_eval_enospc s path truncFlag now hfs (halloc.trans ha),
          my_open_eval_enospc t path truncFlag now hf ha]
        exact ⟨rfl, h⟩
      | some idx =>
        rw [my_open_eval_new s path truncFlag now idx hfs (halloc.trans ha),
          my_open_eval_new t path truncFlag now idx hf ha]
        refine ⟨rfl, ?_⟩
        simp only [erasePerms, FS.mk.injEq]
        refine ⟨?_, ?_, hdata⟩
        · rw [hsup]
          congr 1
          exact recompute_congr_set s t h idx _ _ rfl rfl
        · rw [List.map_set, List.map_set, hmap]

/-- C10: for every existing file, `my_getattr` reports the fixed mode
`S_IFREG | 0644` and link count 1 regardless of the mode stored in the
entry's `perms` field, and the stored `perms` field is never read back
by any operation: any two states equal after erasing every `perms`
field (`erasePerms`) produce identical results from getattr, readdir,
read, write, create, open, unlink and truncate, and perms-erasure-equal
successor states from the mutating ones. -/
theorem C10_getattr_fixed_mode_and_perms_unread (s t : FS)
    (path : List Nat) (fh rsize offset mode now tsize : Nat)
    (buf : List Nat) (creatFlag truncFlag seekOk : Bool) (written : Nat)
    (hst : erasePerms s = erasePerms t) :
    (∀ idx, path ≠ [47] → find_file_by_name s.files path = some idx →
      my_getattr s path = .ok
        { st_mode := S_IFREG + 0o644, st_nlink := 1,
          st_size := (s.files.getD idx zeroFileEntry).size,
          st_mtime := (s.files.getD idx zeroFileEntry).mtime,
          st_atime := (s.files.getD idx zeroFileEntry).mtime,
          st_ctime := (s.files.getD idx zeroFileEntry).mtime }) ∧
    my_getattr s path = my_getattr t path ∧
    my_readdir s path = my_readdir t path ∧
    my_read s fh rsize offset seekOk written =
      my_read t fh rsize offset seekOk written ∧
    (my_write s fh buf offset now seekOk written).1 =
      (my_write t fh buf offset now seekOk written).1 ∧
    erasePerms (my_write s fh buf offset now seekOk written).2 =
      erasePerms (my_write t fh buf offset now seekOk written).2 ∧
    (my_create s path mode now).1 = (my_create t path mode now).1 ∧
    erasePerms (my_create s path mode now).2 =
      erasePerms (my_create t path mode now).2 ∧
    (my_open s path creatFlag truncFlag now).1 =
      (my_open t path creatFlag truncFlag now).1 ∧
    erasePerms (my_open s path creatFlag truncFlag now).2 =
      erasePerms (my_open t path creatFlag truncFlag now).2 ∧
    (my_unlink s path).1 = (my_unlink t path).1 ∧
    erasePerms (my_unlink s path).2 = erasePerms (my_unlink t path).2 ∧
    (my_truncate s path tsize now).1 = (my_truncate t path tsize now).1 ∧
    erasePerms (my_truncate s path tsize now).2 =
      erasePerms (my_truncate t path tsize now).2 := by
  refine ⟨?_, my_getattr_congr s t hst path, my_readdir_congr s t hst path,
    my_read_congr s t hst fh rsize offset seekOk written,
    (my_write_congr s t hst fh buf offset now seekOk written).1,
    (my_write_congr s t hst fh buf offset now seekOk written).2,
    (my_create_congr s t hst path mode now).1,
    (my_create_congr s t hst path mode now).2,
    (my_open_congr s t hst path creatFlag truncFlag now).1,
    (my_open_congr s t hst path creatFlag truncFlag now).2,
    (my_unlink_congr s t hst path).1,
    (my_unlink_congr s t hst path).2,
    (my_truncate_congr s t hst path tsize now).1,
    (my_truncate_congr s t hst path tsize now).2⟩
  intro idx hroot hfind
  unfold my_getattr
  rw [if_neg hroot, hfind]

/-- Witness for C10 at a concrete input: `exFS` and `exFS2` differ only
in slot 0's stored `perms` (420 vs 511); getattr of `"/a"` returns the
same fixed `S_IFREG | 0644`, nlink-1 attributes on both. -/
theorem C10_getattr_fixed_mode_and_perms_unread_witness :
    (erasePerms exFS = erasePerms exFS2 ∧ [47, 97] ≠ [47] ∧
      find_file_by_name exFS.files [47, 97] = some 0) ∧
    my_getattr exFS [47, 97] = my_getattr exFS2 [47, 97] ∧
    my_getattr exFS [47, 97] = .ok
      { st_mode := S_IFREG + 0o644, st_nlink := 1, st_size := 10,
        st_mtime := 5, st_atime := 5, st_ctime := 5 } := by
  have h := C10_getattr_fixed_mode_and_perms_unread exFS exFS2 [47, 97]
    0 0 0 0 0 0 [] false false true 0 rfl
  refine ⟨⟨rfl, by decide, by decide⟩, h.2.1, ?_⟩
  have h1 := h.1 0 (by decide) (by decide)
  rw [h1]
  rfl
